import Mathlib

/-!
Verification of the local search/indexing core of a messaging client
(source file src-tauri/src/main.rs): the JSON list codec used for the
encoded list columns, batch upsert into the message and media tables,
search query evaluation, room loading, and smart collections.  SQLite
behaviours relevant to the embedded SQL statements (LIKE matching with
its default ASCII case folding and wildcards, NULL handling in WHERE
clauses, ORDER BY / LIMIT, transaction rollback) are modelled
explicitly, as are the rusqlite row-mapping conventions of the source.
-/

namespace MatrixIndex

/-- Character-wise ASCII lowercasing.  `Char.toLower` folds only the
ASCII range, which matches SQLite's `LOWER` and the default
case-insensitivity of SQLite `LIKE`; on the ASCII inputs relevant here it
also agrees with Rust's `str::to_lowercase`. -/
def lowerStr (s : String) : String := String.mk (s.data.map Char.toLower)

/-! ## JSON codec for `Vec<String>`

`to_json_string` models `serde_json::to_string` on a vector of strings
(the only serialisation the source performs for the list columns);
`parse_vec` models `serde_json::from_str::<Vec<String>>(..).unwrap_or_default()`.
-/

/-- Lowercase hexadecimal digit, as serde_json emits in `\u` escapes. -/
def hexDig (n : Nat) : Char := if n < 10 then Char.ofNat (48 + n) else Char.ofNat (87 + n)

/-- serde_json escaping of one character inside a JSON string literal:
quote and backslash get two-character escapes, the named control escapes
are used for backspace, tab, newline, form feed and carriage return, any
other control character becomes a `\u00XX` escape, and everything else is
emitted verbatim. -/
def escChar (c : Char) : List Char :=
  if c = '"' then ['\\', '"']
  else if c = '\\' then ['\\', '\\']
  else if c.toNat = 8 then ['\\', 'b']
  else if c.toNat = 9 then ['\\', 't']
  else if c.toNat = 10 then ['\\', 'n']
  else if c.toNat = 12 then ['\\', 'f']
  else if c.toNat = 13 then ['\\', 'r']
  else if c.toNat < 32 then ['\\', 'u', '0', '0', hexDig (c.toNat / 16), hexDig (c.toNat % 16)]
  else [c]

/-- Escape every character of a string body. -/
def escList : List Char → List Char
  | [] => []
  | c :: cs => escChar c ++ escList cs

/-- One JSON string literal, quotes included. -/
def encString (s : String) : List Char := '"' :: (escList s.data ++ ['"'])

/-- Comma-separated encoded elements of a JSON array (serde_json emits no
whitespace). -/
def encElems : List String → List Char
  | [] => []
  | [s] => encString s
  | s :: s2 :: rest => encString s ++ ',' :: encElems (s2 :: rest)

/-- Model of `to_json_string` from the source: `serde_json::to_string`
of a `Vec<String>`, which never fails. -/
def to_json_string (values : List String) : String :=
  String.mk ('[' :: (encElems values ++ [']']))

/-- JSON insignificant whitespace. -/
def isJsonWs (c : Char) : Bool := c = ' ' || c = '\n' || c = '\t' || c = '\r'

/-- Skip leading JSON whitespace. -/
def skipWs : List Char → List Char
  | [] => []
  | c :: cs => if isJsonWs c then skipWs cs else c :: cs

/-- Value of one hexadecimal digit character. -/
def hexVal (c : Char) : Option Nat :=
  if 48 ≤ c.toNat ∧ c.toNat ≤ 57 then some (c.toNat - 48)
  else if 97 ≤ c.toNat ∧ c.toNat ≤ 102 then some (c.toNat - 87)
  else if 65 ≤ c.toNat ∧ c.toNat ≤ 70 then some (c.toNat - 55)
  else none

/-- Decode the two-character escapes accepted inside a JSON string. -/
def escDecode (e : Char) : Option Char :=
  if e = '"' then some '"'
  else if e = '\\' then some '\\'
  else if e = '/' then some '/'
  else if e = 'b' then some (Char.ofNat 8)
  else if e = 'f' then some (Char.ofNat 12)
  else if e = 'n' then some (Char.ofNat 10)
  else if e = 'r' then some (Char.ofNat 13)
  else if e = 't' then some (Char.ofNat 9)
  else none

/-- Read four hexadecimal digits. -/
def readHex4 : List Char → Option (Nat × List Char)
  | h1 :: h2 :: h3 :: h4 :: rest =>
    match hexVal h1, hexVal h2, hexVal h3, hexVal h4 with
    | some a, some b, some c, some d => some (((a * 16 + b) * 16 + c) * 16 + d, rest)
    | _, _, _, _ => none
  | _ => none

/-- Decode what follows a backslash inside a JSON string: the two-character
escapes of `escDecode`, or a `\uXXXX` escape, pairing surrogates and
rejecting lone ones, as serde_json does. -/
def readEscape : List Char → Option (Char × List Char)
  | [] => none
  | e :: cs =>
    if e = 'u' then
      match readHex4 cs with
      | some (n, rest) =>
        if 55296 ≤ n ∧ n ≤ 56319 then
          match rest with
          | b1 :: u1 :: rest2 =>
            if b1 = '\\' ∧ u1 = 'u' then
              match readHex4 rest2 with
              | some (m, rest3) =>
                if 56320 ≤ m ∧ m ≤ 57343 then
                  some (Char.ofNat (65536 + (n - 55296) * 1024 + (m - 56320)), rest3)
                else none
              | none => none
            else none
          | _ => none
        else if 56320 ≤ n ∧ n ≤ 57343 then none
        else some (Char.ofNat n, rest)
      | none => none
    else
      match escDecode e with
      | some d => some (d, cs)
      | none => none

/-- Decode the body of a JSON string literal up to and including its
closing quote, returning the decoded characters and the remaining input.
Models serde_json's string decoding: escapes via `readEscape`, rejection
of raw control characters.  The fuel argument only forces termination;
every step consumes at least one input character, so the callers, which
pass the input length plus one, never exhaust it on accepted inputs. -/
def parseStrBody : Nat → List Char → Option (List Char × List Char)
  | 0, _ => none
  | _ + 1, [] => none
  | fuel + 1, c :: cs =>
    if c = '"' then some ([], cs)
    else if c = '\\' then
      match readEscape cs with
      | some (d, rest) =>
        match parseStrBody fuel rest with
        | some (s, r2) => some (d :: s, r2)
        | none => none
      | none => none
    else if c.toNat < 32 then none
    else
      match parseStrBody fuel cs with
      | some (s, r2) => some (c :: s, r2)
      | none => none

/-- Decode a comma-separated sequence of JSON strings followed by the
closing bracket of the array.  The fuel argument only bounds the number
of elements; the top-level caller passes more fuel than the input length,
so it never runs out on inputs the grammar accepts. -/
def parseItems : Nat → List Char → Option (List String × List Char)
  | 0, _ => none
  | fuel + 1, cs =>
    match cs with
    | '"' :: cs1 =>
      match parseStrBody (cs1.length + 1) cs1 with
      | some (s, rest) =>
        match skipWs rest with
        | ',' :: rest2 =>
          (match parseItems fuel (skipWs rest2) with
           | some (items, rest3) => some (String.mk s :: items, rest3)
           | none => none)
        | ']' :: rest2 => some ([String.mk s], rest2)
        | _ => none
      | none => none
    | _ => none

/-- Model of `serde_json::from_str::<Vec<String>>` on a whole input:
a single JSON array of strings, surrounded by nothing but whitespace. -/
def parseStringArray (s : String) : Option (List String) :=
  match skipWs s.data with
  | '[' :: rest =>
    match skipWs rest with
    | ']' :: rest2 => if (skipWs rest2).isEmpty then some [] else none
    | rest1 =>
      match parseItems (rest1.length + 1) rest1 with
      | some (items, rest2) => if (skipWs rest2).isEmpty then some items else none
      | none => none
  | _ => none

/-- Model of `parse_vec` from the source: decode a stored JSON list,
degrading to the empty list when decoding fails. -/
def parse_vec (json_value : String) : List String :=
  (parseStringArray json_value).getD []

/-! ## SQLite LIKE

The source builds `LIKE` predicates for the media-type filter, the
mention filter, the free-text filter and the smart-collection counts.
SQLite's default `LIKE` treats `%` as matching any sequence, `_` as
matching any single character, and compares other characters
ASCII-case-insensitively (no `ESCAPE` clause is used anywhere in the
source).  The fuel argument only forces termination; every recursive call
strictly shrinks pattern plus text, so the wrapper's fuel never runs
out. -/
def likeCharEq (p c : Char) : Bool := p.toLower == c.toLower

def likeFuel : Nat → List Char → List Char → Bool
  | 0, _, _ => false
  | _ + 1, [], [] => true
  | _ + 1, [], _ :: _ => false
  | fuel + 1, p :: ps, txt =>
    if p = '%' then
      likeFuel fuel ps txt ||
        (match txt with
         | [] => false
         | _ :: ts => likeFuel fuel (p :: ps) ts)
    else if p = '_' then
      match txt with
      | [] => false
      | _ :: ts => likeFuel fuel ps ts
    else
      match txt with
      | [] => false
      | c :: ts => likeCharEq p c && likeFuel fuel ps ts

/-- `likeStr pat txt` is SQLite `txt LIKE pat`. -/
def likeStr (pat txt : String) : Bool :=
  likeFuel (pat.data.length + txt.data.length + 1) pat.data txt.data

/-- `LIKE` over a nullable column: in SQL, `NULL LIKE pat` is `NULL`,
which a `WHERE` clause (or a disjunct of one) treats as not matching. -/
def likeOpt (col : Option String) (pat : String) : Bool :=
  match col with
  | some s => likeStr pat s
  | none => false

/-! ## Data model

The record structures mirror the serde structs of the source; the row
structures mirror the two tables created by `init_index_db`, with
`Option` for nullable columns (`body`, `search_tokens` and the four
`*_json` columns of `message_index` are nullable there, as are all
`media_index` columns except the four `TEXT NOT NULL` ones; `has_media`
is `INTEGER NOT NULL`). -/

structure IndexedMessageRecord where
  event_id : String
  room_id : String
  sender : String
  timestamp : Int
  body : Option String
  tokens : List String
  tags : List String
  reactions : List String
  has_media : Bool
  media_types : List String
deriving DecidableEq

structure MediaItemRecord where
  id : String
  event_id : String
  room_id : String
  media_type : String
  mxc_url : Option String
  thumbnail_mxc : Option String
  file_name : Option String
  size : Option Int
  mimetype : Option String
  sender : String
  timestamp : Int
  body : Option String
  url : Option String
deriving DecidableEq

structure IndexUpsertPayload where
  room_id : String
  messages : List IndexedMessageRecord
  media_items : List MediaItemRecord
deriving DecidableEq

structure LocalSearchQueryPayload where
  term : Option String
  room_id : Option String
  senders : Option (List String)
  from_ts : Option Int
  to_ts : Option Int
  has_media : Option Bool
  limit : Option Nat
  media_types : Option (List String)
deriving DecidableEq

/-- The all-absent query (every serde field defaults to `None`). -/
def emptyQuery : LocalSearchQueryPayload :=
  { term := none, room_id := none, senders := none, from_ts := none,
    to_ts := none, has_media := none, limit := none, media_types := none }

structure SmartCollectionSummaryResponse where
  id : String
  label : String
  description : String
  count : Nat
  token : String
deriving DecidableEq

structure MessageRow where
  room_id : String
  event_id : String
  sender : String
  timestamp : Int
  body : Option String
  search_tokens : Option String
  tokens_json : Option String
  tags_json : Option String
  reactions_json : Option String
  has_media : Int
  media_types_json : Option String
deriving DecidableEq

structure MediaRow where
  id : String
  event_id : String
  room_id : String
  media_type : String
  mxc_url : Option String
  thumbnail_mxc : Option String
  file_name : Option String
  size : Option Int
  mimetype : Option String
  sender : Option String
  timestamp : Option Int
  body : Option String
  url : Option String
deriving DecidableEq

/-- The two tables of the store. -/
structure Store where
  messages : List MessageRow
  media : List MediaRow
deriving DecidableEq

structure PersistedRoomIndexResponse where
  media : List MediaItemRecord
  messages : List IndexedMessageRecord
deriving DecidableEq

/-! ## Ingestion (insert_index_records) -/

/-- The `message_index` row written for one record: JSON-encoded list
columns, the space-sentinel search surface `" tok1 tok2 ... "`, and
`has_media` encoded as 1/0. -/
def msgRowOf (m : IndexedMessageRecord) : MessageRow :=
  { room_id := m.room_id
    event_id := m.event_id
    sender := m.sender
    timestamp := m.timestamp
    body := m.body
    search_tokens := some (" " ++ String.intercalate " " m.tokens ++ " ")
    tokens_json := some (to_json_string m.tokens)
    tags_json := some (to_json_string m.tags)
    reactions_json := some (to_json_string m.reactions)
    has_media := if m.has_media then 1 else 0
    media_types_json := some (to_json_string m.media_types) }

/-- The `media_index` row written for one media item. -/
def mediaRowOf (i : MediaItemRecord) : MediaRow :=
  { id := i.id
    event_id := i.event_id
    room_id := i.room_id
    media_type := i.media_type
    mxc_url := i.mxc_url
    thumbnail_mxc := i.thumbnail_mxc
    file_name := i.file_name
    size := i.size
    mimetype := i.mimetype
    sender := some i.sender
    timestamp := some i.timestamp
    body := i.body
    url := i.url }

/-- `INSERT .. ON CONFLICT(key) DO UPDATE` on a table modelled as a row
list: replace the keyed row in place if the key is present, else append.
The `DO UPDATE` clauses of the source overwrite every non-key column, so
the replacement is the whole new row. -/
def upsertBy {α κ : Type} [DecidableEq κ] (key : α → κ) (t : List α) (r : α) : List α :=
  if t.any (fun x => decide (key x = key r)) then
    t.map (fun x => if key x = key r then r else x)
  else t ++ [r]

/-- Primary key of `message_index`. -/
def msgKey (r : MessageRow) : String × String := (r.room_id, r.event_id)

def upsertMessageRow (t : List MessageRow) (m : IndexedMessageRecord) : List MessageRow :=
  upsertBy msgKey t (msgRowOf m)

def upsertMediaRow (t : List MediaRow) (i : MediaItemRecord) : List MediaRow :=
  upsertBy MediaRow.id t (mediaRowOf i)

/-- The effect of a successfully committed batch: upsert every message,
then every media item (each keyed by its own record fields; the payload's
top-level room_id is never read). -/
def applyBatch (st : Store) (p : IndexUpsertPayload) : Store :=
  { messages := p.messages.foldl upsertMessageRow st.messages
    media := p.media_items.foldl upsertMediaRow st.media }

/-- Per-statement execution of the message loop inside the transaction.
`fail k` says whether the k-th SQL statement of the transaction fails
(modelling environmental write failures); on the first failure the
function returns the error the source propagates with `?`. -/
def runMessages (fail : Nat → Bool) :
    Nat → List MessageRow → List IndexedMessageRecord → Except String (List MessageRow × Nat)
  | k, t, [] => .ok (t, k)
  | k, t, m :: ms =>
    if fail k then .error "message write failed"
    else runMessages fail (k + 1) (upsertMessageRow t m) ms

/-- Per-statement execution of the media loop inside the transaction. -/
def runMedia (fail : Nat → Bool) :
    Nat → List MediaRow → List MediaItemRecord → Except String (List MediaRow × Nat)
  | k, t, [] => .ok (t, k)
  | k, t, i :: items =>
    if fail k then .error "media write failed"
    else runMedia fail (k + 1) (upsertMediaRow t i) items

/-- Model of `insert_index_records`: early success on an empty batch,
otherwise one transaction executing every message statement, then every
media statement, then the commit (the statement after the last write).
An error anywhere makes the function return `.error` before the commit;
dropping the uncommitted rusqlite transaction rolls it back, so the
caller's visible store stays the input store (see `visibleStore`). -/
def insert_index_records (fail : Nat → Bool) (st : Store) (p : IndexUpsertPayload) :
    Except String Store :=
  if p.messages.isEmpty && p.media_items.isEmpty then .ok st
  else
    match runMessages fail 0 st.messages p.messages with
    | .error e => .error e
    | .ok (mt, k) =>
      match runMedia fail k st.media p.media_items with
      | .error e => .error e
      | .ok (dt, k2) =>
        if fail k2 then .error "commit failed" else .ok { messages := mt, media := dt }

/-- The store visible after a call: the new store on commit, the
unchanged input store when the transaction was rolled back. -/
def visibleStore (res : Except String Store) (pre : Store) : Store :=
  match res with
  | .ok st => st
  | .error _ => pre

/-! ## Search (query_index_records) -/

/-- The WHERE clause built by `query_index_records`, evaluated on one
row.  Clause order and shape follow the source: room equality, sender
membership (skipped for an empty sender list), inclusive timestamp
bounds, `has_media = 1` only when the flag is true, one AND-ed
`media_types_json LIKE '%"t"%'` clause per requested type (skipped for an
empty list), the mention clause `search_tokens LIKE '% target %'` on the
lowercased target, and the trimmed, lowercased free-text term matched as
a substring of body, sender, tags or reactions (through SQL `LOWER`) or
as a space-padded token of the search surface. -/
def rowMatches (q : LocalSearchQueryPayload) (mention_target : Option String)
    (r : MessageRow) : Bool :=
  (match q.room_id with
   | some rid => decide (r.room_id = rid)
   | none => true) &&
  (match q.senders with
   | some ss => ss.isEmpty || ss.any (fun s => decide (r.sender = s))
   | none => true) &&
  (match q.from_ts with
   | some a => decide (a ≤ r.timestamp)
   | none => true) &&
  (match q.to_ts with
   | some b => decide (r.timestamp ≤ b)
   | none => true) &&
  (if q.has_media.getD false then decide (r.has_media = 1) else true) &&
  (match q.media_types with
   | some ts => ts.isEmpty || ts.all (fun m => likeOpt r.media_types_json ("%\"" ++ m ++ "\"%"))
   | none => true) &&
  (match mention_target with
   | some tok => likeOpt r.search_tokens ("% " ++ lowerStr tok ++ " %")
   | none => true) &&
  (match q.term with
   | some term =>
     if term.trim = "" then true
     else
       likeStr ("%" ++ lowerStr term.trim ++ "%") (lowerStr (r.body.getD "")) ||
       likeStr ("%" ++ lowerStr term.trim ++ "%") (lowerStr r.sender) ||
       (match r.tags_json with
        | some t => likeStr ("%" ++ lowerStr term.trim ++ "%") (lowerStr t)
        | none => false) ||
       (match r.reactions_json with
        | some t => likeStr ("%" ++ lowerStr term.trim ++ "%") (lowerStr t)
        | none => false) ||
       likeOpt r.search_tokens ("% " ++ lowerStr term.trim ++ " %")
   | none => true)

/-- Stable insertion into a timestamp-descending list.  Models `ORDER BY
timestamp DESC`; SQLite leaves the order of ties unspecified, modelled
here as the stable source order. -/
def insertDescMsg (r : MessageRow) : List MessageRow → List MessageRow
  | [] => [r]
  | x :: xs => if x.timestamp ≤ r.timestamp then r :: x :: xs else x :: insertDescMsg r xs

def sortDescMsg (l : List MessageRow) : List MessageRow := l.foldr insertDescMsg []

/-- SQL ordering on a nullable timestamp: NULL sorts below every value,
hence last under DESC. -/
def tsLeOpt (a b : Option Int) : Bool :=
  match a, b with
  | none, _ => true
  | some _, none => false
  | some x, some y => decide (x ≤ y)

def insertDescMedia (r : MediaRow) : List MediaRow → List MediaRow
  | [] => [r]
  | x :: xs =>
    if tsLeOpt x.timestamp r.timestamp then r :: x :: xs else x :: insertDescMedia r xs

def sortDescMedia (l : List MediaRow) : List MediaRow := l.foldr insertDescMedia []

/-- SQL `LIMIT`, applied to the ordered row set. -/
def takeLimit {α : Type} (limit : Option Nat) (l : List α) : List α :=
  match limit with
  | some n => l.take n
  | none => l

/-- Row mapping performed while iterating query results.  The four list
columns are read with `row.get::<String>`, which errors on NULL; the
source's `if let Ok(record) = row` then silently skips the row, modelled
by `Option`.  Present text decodes through `parse_vec`; `has_media` is
read as an integer and compared with 0. -/
def readRecord (r : MessageRow) : Option IndexedMessageRecord :=
  match r.tokens_json, r.tags_json, r.reactions_json, r.media_types_json with
  | some tk, some tg, some rc, some mt =>
    some { event_id := r.event_id, room_id := r.room_id, sender := r.sender,
           timestamp := r.timestamp, body := r.body,
           tokens := parse_vec tk, tags := parse_vec tg, reactions := parse_vec rc,
           has_media := decide (r.has_media ≠ 0), media_types := parse_vec mt }
  | _, _, _, _ => none

/-- Total row mapping: what `readRecord` yields whenever the four list
columns are present. -/
def readRecordD (r : MessageRow) : IndexedMessageRecord :=
  { event_id := r.event_id, room_id := r.room_id, sender := r.sender,
    timestamp := r.timestamp, body := r.body,
    tokens := parse_vec (r.tokens_json.getD ""), tags := parse_vec (r.tags_json.getD ""),
    reactions := parse_vec (r.reactions_json.getD ""),
    has_media := decide (r.has_media ≠ 0),
    media_types := parse_vec (r.media_types_json.getD "") }

/-- Model of `query_index_records` on the successful path: filter with
the built WHERE clause, `ORDER BY timestamp DESC`, apply `LIMIT`, then
map each row, silently skipping rows whose mapping fails. -/
def query_index_records (st : Store) (q : LocalSearchQueryPayload)
    (mention_target : Option String) : List IndexedMessageRecord :=
  (takeLimit q.limit (sortDescMsg (st.messages.filter (rowMatches q mention_target)))).filterMap
    readRecord

/-- Media row mapping of `load_room_index_from_conn`: `sender` and
`timestamp` are read as non-optional, so a NULL there fails the row
mapping and the row is skipped by the `if let Ok` loop. -/
def readMedia (r : MediaRow) : Option MediaItemRecord :=
  match r.sender, r.timestamp with
  | some s, some t =>
    some { id := r.id, event_id := r.event_id, room_id := r.room_id,
           media_type := r.media_type, mxc_url := r.mxc_url,
           thumbnail_mxc := r.thumbnail_mxc, file_name := r.file_name, size := r.size,
           mimetype := r.mimetype, sender := s, timestamp := t, body := r.body, url := r.url }
  | _, _ => none

def readMediaD (r : MediaRow) : MediaItemRecord :=
  { id := r.id, event_id := r.event_id, room_id := r.room_id,
    media_type := r.media_type, mxc_url := r.mxc_url,
    thumbnail_mxc := r.thumbnail_mxc, file_name := r.file_name, size := r.size,
    mimetype := r.mimetype, sender := r.sender.getD "", timestamp := r.timestamp.getD 0,
    body := r.body, url := r.url }

/-- Model of `load_room_index_from_conn`: both tables filtered on the
room, ordered by timestamp descending, rows mapped with the skipping
`if let Ok` loops. -/
def load_room_index_from_conn (st : Store) (room_id : String) : PersistedRoomIndexResponse :=
  { media := (sortDescMedia (st.media.filter (fun r => decide (r.room_id = room_id)))).filterMap
      readMedia
    messages := (sortDescMsg (st.messages.filter
      (fun r => decide (r.room_id = room_id)))).filterMap readRecord }

/-! ## Smart collections -/

/-- Model of `normalized_localpart`: lowercase, keep everything before
the first ':', strip every leading '@'. -/
def normalized_localpart (user_id : String) : String :=
  String.mk (((lowerStr user_id).splitOn ":").headD (lowerStr user_id)
    |>.data.dropWhile (fun c => c = '@'))

/-- WHERE clause of the important count: tag "important" or one of the
three emphasis reaction glyphs, matched with LIKE on the encoded
columns (glyph string literals copied byte-for-byte from the source). -/
def importantRow (r : MessageRow) : Bool :=
  likeOpt r.tags_json "%\"important\"%" ||
  likeOpt r.reactions_json "%\"‚≠ê\"%" ||
  likeOpt r.reactions_json "%\"üî•\"%" ||
  likeOpt r.reactions_json "%\"‚ùó\"%"

/-- WHERE clause of the mentions count for a given localpart: the
localpart as a space-padded token of the search surface, or
`@localpart` as a substring of the lowercased body. -/
def mentionRow (localpart : String) (r : MessageRow) : Bool :=
  likeOpt r.search_tokens ("% " ++ localpart ++ " %") ||
  likeStr ("%@" ++ localpart ++ "%") (lowerStr (r.body.getD ""))

/-- Model of `compute_smart_collections`: the important collection is
pushed first when its count is positive; when the derived localpart is
non-empty and the mentions count is positive, the mentions collection is
pushed after it. -/
def compute_smart_collections (st : Store) (user_id : String) :
    List SmartCollectionSummaryResponse :=
  let important_count := (st.messages.filter importantRow).length
  let out1 : List SmartCollectionSummaryResponse :=
    if 0 < important_count then
      [{ id := "important", label := "–í–∞–∂–Ω–æ",
         description := "–°–æ–æ–±—â–µ–Ω–∏—è —Å —Ç–µ–≥–æ–º important –∏–ª–∏ –ø–æ–ø—É–ª—è—Ä–Ω—ã–º–∏ —Ä–µ–∞–∫—Ü–∏—è–º–∏",
         count := important_count, token := "smart:important" }]
    else []
  let localSeg := normalized_localpart user_id
  if localSeg = "" then out1
  else
    let mentions_count := (st.messages.filter (mentionRow localSeg)).length
    if 0 < mentions_count then
      out1 ++ [{ id := "mentions", label := "–ü—Ä–æ–ø—É—â–µ–Ω–Ω—ã–µ —É–ø–æ–º–∏–Ω–∞–Ω–∏—è",
                 description := "–°–æ–æ–±—â–µ–Ω–∏—è —Å —É–ø–æ–º–∏–Ω–∞–Ω–∏–µ–º –≤–∞—à–µ–≥–æ –∞–∫–∫–∞—É–Ω—Ç–∞",
                 count := mentions_count, token := "smart:mentions" }]
    else out1

/-! ## Generic keyed upserts: pointwise replacement and key presence -/

section UpsertDefs

variable {α κ : Type} [DecidableEq κ] (key : α → κ)

/-- One pointwise replacement step. -/
def pointFold (x : α) (B : List α) : α :=
  B.foldl (fun y r => if key y = key r then r else y) x

/-- A key is present in a table. -/
def HasKey (t : List α) (c : κ) : Prop := ∃ x ∈ t, key x = c

end UpsertDefs

/-- Case-sensitive prefix test on character lists. -/
def prefixChars : List Char → List Char → Bool
  | [], _ => true
  | _ :: _, [] => false
  | a :: as, b :: bs => a == b && prefixChars as bs

/-- Case-sensitive substring containment on character lists. -/
def containsSub : List Char → List Char → Bool
  | hay, needle =>
    if prefixChars needle hay then true
    else
      match hay with
      | [] => false
      | _ :: rest => containsSub rest needle

/-- The spec's criterion for whole-token mention matching, as worded:
the space-sentinel-padded search surface contains the space-padded
target as a plain (case-sensitive) substring. -/
def containsSubstr (hay needle : String) : Bool := containsSub hay.data needle.data

theorem mkData (s : String) : String.mk s.data = s := by cases s; rfl

theorem dataMk (cs : List Char) : (String.mk cs).data = cs := rfl

/-! ### Round-trip of the codec -/

theorem hexVal_hexDig (n : Nat) (h : n < 16) : hexVal (hexDig n) = some n := by
  interval_cases n <;> decide

theorem skipWs_cons (c : Char) (cs : List Char) (h : isJsonWs c = false) :
    skipWs (c :: cs) = c :: cs := by
  simp [skipWs, h]

theorem psb_quote (fuel : Nat) (cs : List Char) :
    parseStrBody (fuel + 1) ('"' :: cs) = some ([], cs) := by
  simp [parseStrBody]

theorem psb_esc (fuel : Nat) (cs : List Char) :
    parseStrBody (fuel + 1) ('\\' :: cs) =
      match readEscape cs with
      | some (d, rest) =>
        match parseStrBody fuel rest with
        | some (s, r2) => some (d :: s, r2)
        | none => none
      | none => none := by
  simp [parseStrBody]

theorem psb_lit (fuel : Nat) (c : Char) (cs : List Char) (h1 : ¬ c = '"') (h2 : ¬ c = '\\')
    (h3 : ¬ c.toNat < 32) :
    parseStrBody (fuel + 1) (c :: cs) =
      match parseStrBody fuel cs with
      | some (s, r2) => some (c :: s, r2)
      | none => none := by
  simp [parseStrBody, h1, h2, h3]

theorem readEscape_u00 (q r : Nat) (hq : q < 2) (hr : r < 16) (cs : List Char) :
    readEscape ('u' :: '0' :: '0' :: hexDig q :: hexDig r :: cs) =
      some (Char.ofNat (q * 16 + r), cs) := by
  have h0 : hexVal '0' = some 0 := by decide
  have hs1 : ¬(55296 ≤ q * 16 + r ∧ q * 16 + r ≤ 56319) := by omega
  have hs2 : ¬(56320 ≤ q * 16 + r ∧ q * 16 + r ≤ 57343) := by omega
  have hv : ((0 * 16 + 0) * 16 + q) * 16 + r = q * 16 + r := by omega
  simp [readEscape, readHex4, h0, hexVal_hexDig q (by omega), hexVal_hexDig r hr, hv, hs1, hs2]

theorem length_le_escList (l : List Char) : l.length ≤ (escList l).length := by
  induction l with
  | nil => simp [escList]
  | cons c l ih =>
    rw [escList]
    have h1 : 1 ≤ (escChar c).length := by
      rw [escChar]
      repeat' split
      all_goals simp
    simp only [List.length_append, List.length_cons]
    omega

theorem parseStrBody_escList (l : List Char) :
    ∀ (fuel : Nat) (tail : List Char), l.length < fuel →
      parseStrBody fuel (escList l ++ '"' :: tail) = some (l, tail) := by
  induction l with
  | nil =>
    intro fuel tail hf
    cases fuel with
    | zero => omega
    | succ f => exact psb_quote f tail
  | cons c l ih =>
    intro fuel tail hf
    cases fuel with
    | zero => omega
    | succ f =>
    have hrec := ih f tail (by simp at hf ⊢; omega)
    rw [escList, List.append_assoc]
    by_cases h1 : c = '"'
    · subst h1
      rw [show escChar '"' ++ (escList l ++ '"' :: tail)
        = '\\' :: ('"' :: (escList l ++ '"' :: tail)) from rfl]
      rw [psb_esc]
      rw [show readEscape ('"' :: (escList l ++ '"' :: tail))
        = some ('"', escList l ++ '"' :: tail) from by simp [readEscape, escDecode]]
      simp only [hrec]
    · by_cases h2 : c = '\\'
      · subst h2
        rw [show escChar '\\' ++ (escList l ++ '"' :: tail)
          = '\\' :: ('\\' :: (escList l ++ '"' :: tail)) from by rw [escChar]; simp]
        rw [psb_esc]
        rw [show readEscape ('\\' :: (escList l ++ '"' :: tail))
          = some ('\\', escList l ++ '"' :: tail) from by simp [readEscape, escDecode]]
        simp only [hrec]
      · by_cases h3 : c.toNat = 8
        · have hc : Char.ofNat 8 = c := by rw [← h3, Char.ofNat_toNat]
          rw [show escChar c ++ (escList l ++ '"' :: tail)
            = '\\' :: ('b' :: (escList l ++ '"' :: tail)) from by
              rw [escChar, if_neg h1, if_neg h2, if_pos h3]; rfl]
          rw [psb_esc]
          rw [show readEscape ('b' :: (escList l ++ '"' :: tail))
            = some (Char.ofNat 8, escList l ++ '"' :: tail) from by simp [readEscape, escDecode]]
          simp only [hrec, hc]
        · by_cases h4 : c.toNat = 9
          · have hc : Char.ofNat 9 = c := by rw [← h4, Char.ofNat_toNat]
            rw [show escChar c ++ (escList l ++ '"' :: tail)
              = '\\' :: ('t' :: (escList l ++ '"' :: tail)) from by
                rw [escChar, if_neg h1, if_neg h2, if_neg h3, if_pos h4]; rfl]
            rw [psb_esc]
            rw [show readEscape ('t' :: (escList l ++ '"' :: tail))
              = some (Char.ofNat 9, escList l ++ '"' :: tail) from by simp [readEscape, escDecode]]
            simp only [hrec, hc]
          · by_cases h5 : c.toNat = 10
            · have hc : Char.ofNat 10 = c := by rw [← h5, Char.ofNat_toNat]
              rw [show escChar c ++ (escList l ++ '"' :: tail)
                = '\\' :: ('n' :: (escList l ++ '"' :: tail)) from by
                  rw [escChar, if_neg h1, if_neg h2, if_neg h3, if_neg h4, if_pos h5]; rfl]
              rw [psb_esc]
              rw [show readEscape ('n' :: (escList l ++ '"' :: tail))
                = some (Char.ofNat 10, escList l ++ '"' :: tail) from by
                  simp [readEscape, escDecode]]
              simp only [hrec, hc]
            · by_cases h6 : c.toNat = 12
              · have hc : Char.ofNat 12 = c := by rw [← h6, Char.ofNat_toNat]
                rw [show escChar c ++ (escList l ++ '"' :: tail)
                  = '\\' :: ('f' :: (escList l ++ '"' :: tail)) from by
                    rw [escChar, if_neg h1, if_neg h2, if_neg h3, if_neg h4, if_neg h5, if_pos h6]; rfl]
                rw [psb_esc]
                rw [show readEscape ('f' :: (escList l ++ '"' :: tail))
                  = some (Char.ofNat 12, escList l ++ '"' :: tail) from by
                    simp [readEscape, escDecode]]
                simp only [hrec, hc]
              · by_cases h7 : c.toNat = 13
                · have hc : Char.ofNat 13 = c := by rw [← h7, Char.ofNat_toNat]
                  rw [show escChar c ++ (escList l ++ '"' :: tail)
                    = '\\' :: ('r' :: (escList l ++ '"' :: tail)) from by
                      rw [escChar, if_neg h1, if_neg h2, if_neg h3, if_neg h4, if_neg h5,
                        if_neg h6, if_pos h7]; rfl]
                  rw [psb_esc]
                  rw [show readEscape ('r' :: (escList l ++ '"' :: tail))
                    = some (Char.ofNat 13, escList l ++ '"' :: tail) from by
                      simp [readEscape, escDecode]]
                  simp only [hrec, hc]
                · by_cases h8 : c.toNat < 32
                  · have hc : Char.ofNat (c.toNat / 16 * 16 + c.toNat % 16) = c := by
                      rw [show c.toNat / 16 * 16 + c.toNat % 16 = c.toNat by omega,
                        Char.ofNat_toNat]
                    rw [show escChar c ++ (escList l ++ '"' :: tail)
                      = '\\' :: ('u' :: '0' :: '0' :: hexDig (c.toNat / 16) ::
                          hexDig (c.toNat % 16) :: (escList l ++ '"' :: tail)) from by
                        rw [escChar, if_neg h1, if_neg h2, if_neg h3, if_neg h4, if_neg h5,
                          if_neg h6, if_neg h7, if_pos h8]; rfl]
                    rw [psb_esc, readEscape_u00 (c.toNat / 16) (c.toNat % 16) (by omega) (by omega)]
                    simp only [hrec, hc]
                  · rw [show escChar c ++ (escList l ++ '"' :: tail)
                      = c :: (escList l ++ '"' :: tail) from by
                        rw [escChar, if_neg h1, if_neg h2, if_neg h3, if_neg h4, if_neg h5,
                          if_neg h6, if_neg h7, if_neg h8]; rfl]
                    rw [psb_lit f c _ h1 h2 h8, hrec]

theorem encElems_cons (x : String) (xs : List String) :
    ∃ tl, encElems (x :: xs) = '"' :: tl := by
  cases xs with
  | nil => exact ⟨escList x.data ++ ['"'], rfl⟩
  | cons y ys => exact ⟨(escList x.data ++ ['"']) ++ ',' :: encElems (y :: ys), rfl⟩

theorem length_le_encElems (l : List String) : l.length ≤ (encElems l).length := by
  induction l with
  | nil => simp [encElems]
  | cons x xs ih =>
    cases xs with
    | nil => simp [encElems, encString]
    | cons y ys =>
      rw [encElems]
      simp only [List.length_append, List.length_cons, encString]
      simp only [List.length_cons] at ih ⊢
      omega

theorem parseStrBody_enc_ready (s : String) (rest : List Char) :
    parseStrBody ((escList s.data ++ '"' :: rest).length + 1) (escList s.data ++ '"' :: rest)
      = some (s.data, rest) := by
  apply parseStrBody_escList
  have := length_le_escList s.data
  simp only [List.length_append, List.length_cons]
  omega

theorem pitems_str (fuel : Nat) (cs1 : List Char) :
    parseItems (fuel + 1) ('"' :: cs1) =
      match parseStrBody (cs1.length + 1) cs1 with
      | some (s, rest) =>
        match skipWs rest with
        | ',' :: rest2 =>
          (match parseItems fuel (skipWs rest2) with
           | some (items, rest3) => some (String.mk s :: items, rest3)
           | none => none)
        | ']' :: rest2 => some ([String.mk s], rest2)
        | _ => none
      | none => none := by
  simp [parseItems]

theorem parseItems_enc (l : List String) (hl : l ≠ []) :
    ∀ (fuel : Nat) (tail : List Char), l.length < fuel →
      parseItems fuel (encElems l ++ ']' :: tail) = some (l, tail) := by
  induction l with
  | nil => exact absurd rfl hl
  | cons s xs ih =>
    intro fuel tail hfuel
    cases fuel with
    | zero => omega
    | succ f =>
      cases xs with
      | nil =>
        have hsk : skipWs (']' :: tail) = ']' :: tail := skipWs_cons _ _ (by decide)
        have hshape : encElems [s] ++ ']' :: tail
            = '"' :: (escList s.data ++ '"' :: (']' :: tail)) := by
          simp [encElems, encString]
        rw [hshape, pitems_str, parseStrBody_enc_ready s (']' :: tail)]
        simp only [hsk, mkData]
      | cons y ys =>
        obtain ⟨tl, htl⟩ := encElems_cons y ys
        have hsk : skipWs (',' :: (encElems (y :: ys) ++ ']' :: tail))
            = ',' :: (encElems (y :: ys) ++ ']' :: tail) := skipWs_cons _ _ (by decide)
        have hsk2 : skipWs (encElems (y :: ys) ++ ']' :: tail)
            = encElems (y :: ys) ++ ']' :: tail := by
          rw [htl, List.cons_append]
          exact skipWs_cons _ _ (by decide)
        have hrec := ih (by simp) f tail (by simp at hfuel ⊢; omega)
        have hshape : encElems (s :: y :: ys) ++ ']' :: tail
            = '"' :: (escList s.data ++ '"' :: (',' :: (encElems (y :: ys) ++ ']' :: tail))) := by
          simp [encElems, encString]
        rw [hshape, pitems_str,
          parseStrBody_enc_ready s (',' :: (encElems (y :: ys) ++ ']' :: tail))]
        simp only [hsk, hsk2, hrec, mkData]

theorem parseStringArray_enc (l : List String) :
    parseStringArray (to_json_string l) = some l := by
  cases l with
  | nil => decide
  | cons x xs =>
    obtain ⟨tl, htl⟩ := encElems_cons x xs
    have hlt : (x :: xs).length < ('"' :: (tl ++ [']']) : List Char).length + 1 := by
      have h2 := length_le_encElems (x :: xs)
      rw [htl] at h2
      simp only [List.length_cons, List.length_append] at h2 ⊢
      omega
    have hitems := parseItems_enc (x :: xs) (by simp)
      (('"' :: (tl ++ [']']) : List Char).length + 1) [] hlt
    rw [htl, List.cons_append] at hitems
    have hdata : (to_json_string (x :: xs)).data = '[' :: ('"' :: (tl ++ [']'])) := by
      rw [to_json_string, dataMk, htl, List.cons_append]
    rw [parseStringArray, hdata, skipWs_cons _ _ (by decide)]
    simp only []
    rw [skipWs_cons _ _ (by decide)]
    split
    next rest2 heq => simp at heq
    next rest1 heq =>
      rw [hitems]
      simp [skipWs]

/-- Encode-then-decode round trip of the list codec (helper form, used
throughout the development). -/
theorem parse_vec_roundtrip (l : List String) : parse_vec (to_json_string l) = l := by
  rw [parse_vec, parseStringArray_enc]; rfl

/-! ## Generic lemmas about keyed upserts -/

section UpsertLemmas

variable {α κ : Type} [DecidableEq κ] (key : α → κ)

theorem key_pointFold (x : α) (B : List α) : key (pointFold key x B) = key x := by
  induction B generalizing x with
  | nil => rfl
  | cons r B ih =>
    have hstep : pointFold key x (r :: B) = pointFold key (if key x = key r then r else x) B := rfl
    rw [hstep, ih]
    split
    next h => exact h.symm
    next => rfl

theorem upsertBy_eq_map (t : List α) (r : α) (h : ∃ x ∈ t, key x = key r) :
    upsertBy key t r = t.map (fun x => if key x = key r then r else x) := by
  rw [upsertBy, if_pos]
  simp only [List.any_eq_true, decide_eq_true_eq]
  exact h

theorem upsertBy_eq_append (t : List α) (r : α) (h : ∀ x ∈ t, ¬ key x = key r) :
    upsertBy key t r = t ++ [r] := by
  rw [upsertBy, if_neg]
  simp only [List.any_eq_true, decide_eq_true_eq]
  rintro ⟨x, hx, hk⟩
  exact h x hx hk

theorem mem_upsertBy_self (t : List α) (r : α) : r ∈ upsertBy key t r := by
  by_cases h : ∃ x ∈ t, key x = key r
  · rw [upsertBy_eq_map key t r h]
    obtain ⟨x, hx, hk⟩ := h
    exact List.mem_map.mpr ⟨x, hx, by rw [if_pos hk]⟩
  · push_neg at h
    rw [upsertBy_eq_append key t r h]
    exact List.mem_append_right t (List.mem_singleton.mpr rfl)

theorem mem_upsertBy_of_ne (t : List α) (r x : α) (hx : x ∈ t) (hne : ¬ key x = key r) :
    x ∈ upsertBy key t r := by
  by_cases h : ∃ y ∈ t, key y = key r
  · rw [upsertBy_eq_map key t r h]
    exact List.mem_map.mpr ⟨x, hx, by rw [if_neg hne]⟩
  · push_neg at h
    rw [upsertBy_eq_append key t r h]
    exact List.mem_append_left _ hx

theorem mem_upsertBy_elim (t : List α) (r x : α) (hx : x ∈ upsertBy key t r) :
    x = r ∨ (x ∈ t ∧ ¬ key x = key r) := by
  by_cases h : ∃ y ∈ t, key y = key r
  · rw [upsertBy_eq_map key t r h] at hx
    obtain ⟨y, hy, hxy⟩ := List.mem_map.mp hx
    by_cases hk : key y = key r
    · left
      rw [if_pos hk] at hxy
      exact hxy.symm
    · right
      rw [if_neg hk] at hxy
      exact ⟨hxy ▸ hy, hxy ▸ hk⟩
  · push_neg at h
    rw [upsertBy_eq_append key t r h] at hx
    rcases List.mem_append.mp hx with h1 | h2
    · exact Or.inr ⟨h1, h x h1⟩
    · exact Or.inl (List.mem_singleton.mp h2)

theorem hasKey_upsertBy_self (t : List α) (r : α) : HasKey key (upsertBy key t r) (key r) :=
  ⟨r, mem_upsertBy_self key t r, rfl⟩

theorem hasKey_upsertBy_mono (t : List α) (r : α) (c : κ) (h : HasKey key t c) :
    HasKey key (upsertBy key t r) c := by
  obtain ⟨x, hx, hk⟩ := h
  by_cases he : key x = key r
  · exact ⟨r, mem_upsertBy_self key t r, by rw [← he, hk]⟩
  · exact ⟨x, mem_upsertBy_of_ne key t r x hx he, hk⟩

theorem hasKey_foldl_mono (B : List α) (t : List α) (c : κ) (h : HasKey key t c) :
    HasKey key (B.foldl (upsertBy key) t) c := by
  induction B generalizing t with
  | nil => exact h
  | cons r B ih => exact ih _ (hasKey_upsertBy_mono key t r c h)

theorem hasKey_foldl_of_mem (B : List α) (t : List α) (r : α) (hr : r ∈ B) :
    HasKey key (B.foldl (upsertBy key) t) (key r) := by
  induction B generalizing t with
  | nil => cases hr
  | cons b B ih =>
    rw [List.foldl_cons]
    rcases List.mem_cons.mp hr with heq | hmem
    · subst heq
      exact hasKey_foldl_mono key B _ _ (hasKey_upsertBy_self key t r)
    · exact ih _ hmem

theorem mem_foldl_pointFold (B : List α) (t : List α) (x : α)
    (hx : x ∈ B.foldl (upsertBy key) t) : pointFold key x B = x := by
  induction B using List.reverseRecOn with
  | nil => rfl
  | append_singleton B r ih =>
    rw [List.foldl_append] at hx
    simp only [List.foldl_cons, List.foldl_nil] at hx
    rcases mem_upsertBy_elim key _ r x hx with heq | hmem
    · subst heq
      rw [pointFold, List.foldl_append]
      simp only [List.foldl_cons, List.foldl_nil]
      rw [show B.foldl (fun y r => if key y = key r then r else y) x = pointFold key x B from rfl]
      rw [key_pointFold key, if_pos rfl]
    · rw [pointFold, List.foldl_append]
      simp only [List.foldl_cons, List.foldl_nil]
      rw [show B.foldl (fun y r => if key y = key r then r else y) x = pointFold key x B from rfl]
      rw [ih hmem.1, if_neg hmem.2]

theorem foldl_replace_eq_map (B : List α) (t : List α) :
    B.foldl (fun s r => s.map (fun x => if key x = key r then r else x)) t
      = t.map (fun x => pointFold key x B) := by
  induction B generalizing t with
  | nil => exact (List.map_id t).symm
  | cons r B ih =>
    rw [List.foldl_cons, ih, List.map_map]
    exact List.map_congr_left (fun a _ => rfl)

theorem foldl_upsert_eq_replace (B : List α) (t : List α)
    (h : ∀ r ∈ B, HasKey key t (key r)) :
    B.foldl (upsertBy key) t
      = B.foldl (fun s r => s.map (fun x => if key x = key r then r else x)) t := by
  induction B generalizing t with
  | nil => rfl
  | cons r B ih =>
    rw [List.foldl_cons, List.foldl_cons]
    rw [upsertBy_eq_map key t r (h r (List.mem_cons_self r B))]
    apply ih
    intro r2 hr2
    obtain ⟨x, hx, hk⟩ := h r2 (List.mem_cons_of_mem r hr2)
    refine ⟨if key x = key r then r else x, List.mem_map.mpr ⟨x, hx, rfl⟩, ?_⟩
    split
    next he => rw [← he]; exact hk
    next => exact hk

/-- Re-applying a whole batch of upserts to its own result changes
nothing. -/
theorem foldl_upsertBy_idem (B : List α) (t : List α) :
    B.foldl (upsertBy key) (B.foldl (upsertBy key) t) = B.foldl (upsertBy key) t := by
  rw [foldl_upsert_eq_replace key B _ (fun r hr => hasKey_foldl_of_mem key B t r hr)]
  rw [foldl_replace_eq_map]
  calc (B.foldl (upsertBy key) t).map (fun x => pointFold key x B)
      = (B.foldl (upsertBy key) t).map id :=
        List.map_congr_left (fun a ha => mem_foldl_pointFold key B t a ha)
    _ = B.foldl (upsertBy key) t := List.map_id _

theorem nodup_keys_upsertBy (t : List α) (r : α) (h : (t.map key).Nodup) :
    ((upsertBy key t r).map key).Nodup := by
  by_cases hc : ∃ x ∈ t, key x = key r
  · rw [upsertBy_eq_map key t r hc, List.map_map]
    have hcomp : (key ∘ fun x => if key x = key r then r else x) = key := by
      funext x
      simp only [Function.comp_apply]
      split
      next he => rw [he]
      next => rfl
    rw [hcomp]
    exact h
  · push_neg at hc
    rw [upsertBy_eq_append key t r hc, List.map_append]
    rw [List.nodup_append]
    refine ⟨h, List.nodup_singleton _, ?_⟩
    intro a ha hb
    obtain ⟨x, hx, hk⟩ := List.mem_map.mp ha
    simp only [List.map_cons, List.map_nil, List.mem_singleton] at hb
    exact hc x hx (by rw [hk, hb])

theorem countP_key_eq_one (t : List α) (c : κ) (hnd : (t.map key).Nodup)
    (hex : ∃ x ∈ t, key x = c) :
    (t.filter (fun x => decide (key x = c))).length = 1 := by
  induction t with
  | nil => simp at hex
  | cons y t ih =>
    rw [List.map_cons, List.nodup_cons] at hnd
    by_cases hk : key y = c
    · rw [List.filter_cons_of_pos (by simpa using hk)]
      have hnil : t.filter (fun x => decide (key x = c)) = [] := by
        apply List.filter_eq_nil_iff.mpr
        intro a ha
        simp only [decide_eq_true_eq]
        intro hka
        exact hnd.1 (by rw [← hk] at hka; exact hka ▸ List.mem_map_of_mem key ha)
      simp [hnil]
    · rw [List.filter_cons_of_neg (by simpa using hk)]
      apply ih hnd.2
      obtain ⟨x, hx, hk2⟩ := hex
      rcases List.mem_cons.mp hx with heq | hmem
      · exact absurd (heq ▸ hk2) hk
      · exact ⟨x, hmem, hk2⟩

theorem mem_foldl_of_ne (B : List α) (t : List α) (x : α) (hx : x ∈ t)
    (h : ∀ r ∈ B, ¬ key x = key r) : x ∈ B.foldl (upsertBy key) t := by
  induction B generalizing t with
  | nil => exact hx
  | cons b B ih =>
    rw [List.foldl_cons]
    exact ih _ (mem_upsertBy_of_ne key t b x hx (h b (List.mem_cons_self b B)))
      (fun r hr => h r (List.mem_cons_of_mem b hr))

/-- With pairwise-distinct batch keys, every batch element ends up in the
table verbatim. -/
theorem row_mem_foldl_of_nodup (B : List α) (t : List α)
    (hnd : (B.map key).Nodup) (r : α) (hr : r ∈ B) :
    r ∈ B.foldl (upsertBy key) t := by
  induction B generalizing t with
  | nil => cases hr
  | cons b B ih =>
    rw [List.map_cons, List.nodup_cons] at hnd
    rw [List.foldl_cons]
    rcases List.mem_cons.mp hr with heq | hmem
    · subst heq
      exact mem_foldl_of_ne key B _ r (mem_upsertBy_self key t r)
        (fun r2 hr2 he => hnd.1 (he ▸ List.mem_map_of_mem key hr2))
    · exact ih _ hnd.2 hmem

end UpsertLemmas

/-! ## Helper lemmas about the query pipeline -/

theorem mem_insertDescMsg (r x : MessageRow) (l : List MessageRow) :
    x ∈ insertDescMsg r l ↔ x = r ∨ x ∈ l := by
  induction l with
  | nil => simp [insertDescMsg]
  | cons y ys ih =>
    rw [insertDescMsg]
    split
    · simp [List.mem_cons]
    · rw [List.mem_cons, ih, List.mem_cons]
      tauto

theorem mem_sortDescMsg (l : List MessageRow) (x : MessageRow) :
    x ∈ sortDescMsg l ↔ x ∈ l := by
  induction l with
  | nil => simp [sortDescMsg]
  | cons y ys ih =>
    rw [show sortDescMsg (y :: ys) = insertDescMsg y (sortDescMsg ys) from rfl]
    rw [mem_insertDescMsg, ih, List.mem_cons]

theorem sorted_insertDescMsg (r : MessageRow) (l : List MessageRow)
    (h : l.Pairwise (fun a b => b.timestamp ≤ a.timestamp)) :
    (insertDescMsg r l).Pairwise (fun a b => b.timestamp ≤ a.timestamp) := by
  induction l with
  | nil => simp [insertDescMsg]
  | cons x xs ih =>
    rw [List.pairwise_cons] at h
    rw [insertDescMsg]
    split
    next hle =>
      rw [List.pairwise_cons]
      constructor
      · intro b hb
        rcases List.mem_cons.mp hb with heq | hmem
        · subst heq; exact hle
        · exact le_trans (h.1 b hmem) hle
      · exact List.pairwise_cons.mpr h
    next hgt =>
      rw [List.pairwise_cons]
      constructor
      · intro b hb
        rcases (mem_insertDescMsg r b xs).mp hb with heq | hmem
        · subst heq; omega
        · exact h.1 b hmem
      · exact ih h.2

theorem sorted_sortDescMsg (l : List MessageRow) :
    (sortDescMsg l).Pairwise (fun a b => b.timestamp ≤ a.timestamp) := by
  induction l with
  | nil => simp [sortDescMsg]
  | cons y ys ih =>
    rw [show sortDescMsg (y :: ys) = insertDescMsg y (sortDescMsg ys) from rfl]
    exact sorted_insertDescMsg y _ ih

theorem mem_insertDescMedia (r x : MediaRow) (l : List MediaRow) :
    x ∈ insertDescMedia r l ↔ x = r ∨ x ∈ l := by
  induction l with
  | nil => simp [insertDescMedia]
  | cons y ys ih =>
    rw [insertDescMedia]
    split
    · simp [List.mem_cons]
    · rw [List.mem_cons, ih, List.mem_cons]
      tauto

theorem mem_sortDescMedia (l : List MediaRow) (x : MediaRow) :
    x ∈ sortDescMedia l ↔ x ∈ l := by
  induction l with
  | nil => simp [sortDescMedia]
  | cons y ys ih =>
    rw [show sortDescMedia (y :: ys) = insertDescMedia y (sortDescMedia ys) from rfl]
    rw [mem_insertDescMedia, ih, List.mem_cons]

theorem readRecord_eq (r : MessageRow) (rec : IndexedMessageRecord)
    (h : readRecord r = some rec) : rec = readRecordD r := by
  rcases htk : r.tokens_json with _ | tk
  · simp [readRecord, htk] at h
  · rcases htg : r.tags_json with _ | tg
    · simp [readRecord, htk, htg] at h
    · rcases hrc : r.reactions_json with _ | rc
      · simp [readRecord, htk, htg, hrc] at h
      · rcases hmt : r.media_types_json with _ | mt
        · simp [readRecord, htk, htg, hrc, hmt] at h
        · simp only [readRecord, htk, htg, hrc, hmt, Option.some.injEq] at h
          rw [← h]
          simp [readRecordD, htk, htg, hrc, hmt]

theorem readRecord_timestamp (r : MessageRow) (rec : IndexedMessageRecord)
    (h : readRecord r = some rec) : rec.timestamp = r.timestamp := by
  rw [readRecord_eq r rec h]
  rfl

theorem readRecord_total (r : MessageRow) (h1 : r.tokens_json.isSome = true)
    (h2 : r.tags_json.isSome = true) (h3 : r.reactions_json.isSome = true)
    (h4 : r.media_types_json.isSome = true) :
    readRecord r = some (readRecordD r) := by
  rcases htk : r.tokens_json with _ | tk
  · rw [htk] at h1; simp at h1
  · rcases htg : r.tags_json with _ | tg
    · rw [htg] at h2; simp at h2
    · rcases hrc : r.reactions_json with _ | rc
      · rw [hrc] at h3; simp at h3
      · rcases hmt : r.media_types_json with _ | mt
        · rw [hmt] at h4; simp at h4
        · simp [readRecord, readRecordD, htk, htg, hrc, hmt]

theorem readRecord_msgRowOf (m : IndexedMessageRecord) : readRecord (msgRowOf m) = some m := by
  cases m with
  | mk event_id room_id sender timestamp body tokens tags reactions has_media media_types =>
    cases has_media <;>
      simp [readRecord, msgRowOf, parse_vec_roundtrip]

theorem sorted_filterMap_read (l : List MessageRow)
    (h : l.Pairwise (fun a b => b.timestamp ≤ a.timestamp)) :
    (l.filterMap readRecord).Pairwise
      (fun (a b : IndexedMessageRecord) => b.timestamp ≤ a.timestamp) := by
  induction l with
  | nil => simp
  | cons r l ih =>
    rw [List.pairwise_cons] at h
    rw [List.filterMap_cons]
    cases hr : readRecord r with
    | none => exact ih h.2
    | some rec =>
      rw [List.pairwise_cons]
      refine ⟨?_, ih h.2⟩
      intro b hb
      obtain ⟨row, hrow, hread⟩ := List.mem_filterMap.mp hb
      have e1 : rec.timestamp = r.timestamp := readRecord_timestamp r rec hr
      have e2 : b.timestamp = row.timestamp := readRecord_timestamp row b hread
      have e3 := h.1 row hrow
      omega

theorem pairwise_takeLimit {α : Type} (R : α → α → Prop) (lim : Option Nat) (l : List α)
    (h : l.Pairwise R) : (takeLimit lim l).Pairwise R := by
  cases lim with
  | none => exact h
  | some n => exact List.Pairwise.sublist (List.take_sublist n l) h

theorem mem_takeLimit {α : Type} (lim : Option Nat) (l : List α) (x : α)
    (h : x ∈ takeLimit lim l) : x ∈ l := by
  cases lim with
  | none => exact h
  | some n => exact List.take_subset n l h

/-- Every record a query returns comes from a stored row that the WHERE
clause accepted and whose row mapping succeeded. -/
theorem mem_query_elim (st : Store) (q : LocalSearchQueryPayload) (mt : Option String)
    (rec : IndexedMessageRecord) (h : rec ∈ query_index_records st q mt) :
    ∃ row ∈ st.messages, readRecord row = some rec ∧ rowMatches q mt row = true := by
  obtain ⟨row, hrow, hread⟩ := List.mem_filterMap.mp h
  have h2 : row ∈ sortDescMsg (st.messages.filter (rowMatches q mt)) :=
    mem_takeLimit q.limit _ row hrow
  have h3 := (mem_sortDescMsg _ _).mp h2
  have h4 := List.mem_filter.mp h3
  exact ⟨row, h4.1, hread, h4.2⟩

/-- A store holding exactly one freshly ingested message answers a
limitless query with that record precisely when the WHERE clause accepts
its row. -/
theorem query_singleton (m : IndexedMessageRecord) (rid : String)
    (q : LocalSearchQueryPayload) (mt : Option String) (hlim : q.limit = none) :
    query_index_records
        (applyBatch { messages := [], media := [] }
          { room_id := rid, messages := [m], media_items := [] }) q mt
      = if rowMatches q mt (msgRowOf m) then [m] else [] := by
  have htab : (applyBatch { messages := [], media := [] }
      { room_id := rid, messages := [m], media_items := [] }).messages = [msgRowOf m] := by
    simp [applyBatch, upsertMessageRow, upsertBy]
  rw [query_index_records, htab, hlim]
  by_cases hm : rowMatches q mt (msgRowOf m) = true
  · rw [if_pos hm]
    simp [List.filter, hm, sortDescMsg, insertDescMsg, takeLimit, readRecord_msgRowOf]
  · have hm2 : rowMatches q mt (msgRowOf m) = false := by
      cases hb : rowMatches q mt (msgRowOf m)
      · rfl
      · exact absurd hb hm
    rw [if_neg hm]
    simp [List.filter, hm2, sortDescMsg, takeLimit]

theorem filterMap_read_eq_map (l : List MessageRow)
    (h : ∀ r ∈ l, readRecord r = some (readRecordD r)) :
    l.filterMap readRecord = l.map readRecordD := by
  induction l with
  | nil => rfl
  | cons r l ih =>
    rw [List.filterMap_cons, h r (List.mem_cons_self r l)]
    rw [ih (fun x hx => h x (List.mem_cons_of_mem r hx))]
    rfl

/-! ## Helper lemmas about the transaction -/

theorem runMessages_ok (fail : Nat → Bool) (ms : List IndexedMessageRecord) :
    ∀ (k : Nat) (t : List MessageRow), (∀ j, j < ms.length → fail (k + j) = false) →
      runMessages fail k t ms = .ok (ms.foldl upsertMessageRow t, k + ms.length) := by
  induction ms with
  | nil =>
    intro k t _
    simp [runMessages]
  | cons m ms ih =>
    intro k t h
    have h0 : fail k = false := by simpa using h 0 (by simp)
    rw [runMessages, if_neg (by simp [h0])]
    rw [ih (k + 1) (upsertMessageRow t m) (fun j hj => by
      have h2 := h (j + 1) (by simp only [List.length_cons]; omega)
      rw [show k + (j + 1) = k + 1 + j by omega] at h2
      exact h2)]
    rw [show k + 1 + ms.length = k + (m :: ms).length by simp; omega]
    rfl

theorem runMessages_error (fail : Nat → Bool) (ms : List IndexedMessageRecord) :
    ∀ (k : Nat) (t : List MessageRow), (∃ j, j < ms.length ∧ fail (k + j) = true) →
      ∃ e, runMessages fail k t ms = .error e := by
  induction ms with
  | nil =>
    rintro k t ⟨j, hj, _⟩
    simp at hj
  | cons m ms ih =>
    rintro k t ⟨j, hj, hf⟩
    by_cases h0 : fail k = true
    · exact ⟨"message write failed", by rw [runMessages, if_pos h0]⟩
    · have hj0 : j ≠ 0 := by
        intro hz
        subst hz
        rw [Nat.add_zero] at hf
        exact h0 hf
      obtain ⟨e, he⟩ := ih (k + 1) (upsertMessageRow t m)
        ⟨j - 1, by simp only [List.length_cons] at hj; omega,
          by rw [show k + 1 + (j - 1) = k + j by omega]; exact hf⟩
      exact ⟨e, by rw [runMessages, if_neg h0]; exact he⟩

theorem runMedia_ok (fail : Nat → Bool) (items : List MediaItemRecord) :
    ∀ (k : Nat) (t : List MediaRow), (∀ j, j < items.length → fail (k + j) = false) →
      runMedia fail k t items = .ok (items.foldl upsertMediaRow t, k + items.length) := by
  induction items with
  | nil =>
    intro k t _
    simp [runMedia]
  | cons i items ih =>
    intro k t h
    have h0 : fail k = false := by simpa using h 0 (by simp)
    rw [runMedia, if_neg (by simp [h0])]
    rw [ih (k + 1) (upsertMediaRow t i) (fun j hj => by
      have h2 := h (j + 1) (by simp only [List.length_cons]; omega)
      rw [show k + (j + 1) = k + 1 + j by omega] at h2
      exact h2)]
    rw [show k + 1 + items.length = k + (i :: items).length by simp; omega]
    rfl

theorem runMedia_error (fail : Nat → Bool) (items : List MediaItemRecord) :
    ∀ (k : Nat) (t : List MediaRow), (∃ j, j < items.length ∧ fail (k + j) = true) →
      ∃ e, runMedia fail k t items = .error e := by
  induction items with
  | nil =>
    rintro k t ⟨j, hj, _⟩
    simp at hj
  | cons i items ih =>
    rintro k t ⟨j, hj, hf⟩
    by_cases h0 : fail k = true
    · exact ⟨"media write failed", by rw [runMedia, if_pos h0]⟩
    · have hj0 : j ≠ 0 := by
        intro hz
        subst hz
        rw [Nat.add_zero] at hf
        exact h0 hf
      obtain ⟨e, he⟩ := ih (k + 1) (upsertMediaRow t i)
        ⟨j - 1, by simp only [List.length_cons] at hj; omega,
          by rw [show k + 1 + (j - 1) = k + j by omega]; exact hf⟩
      exact ⟨e, by rw [runMedia, if_neg h0]; exact he⟩

theorem applyBatch_empty (st : Store) (p : IndexUpsertPayload) (hm : p.messages = [])
    (hi : p.media_items = []) : applyBatch st p = st := by
  rw [applyBatch, hm, hi]
  rfl

/-- When no statement of the transaction fails, the call commits and the
new store is exactly the batch applied. -/
theorem insert_ok_of_no_fail (fail : Nat → Bool) (st : Store) (p : IndexUpsertPayload)
    (h : ∀ i, fail i = false) :
    insert_index_records fail st p = .ok (applyBatch st p) := by
  by_cases he : (p.messages.isEmpty && p.media_items.isEmpty) = true
  · have hboth := he
    simp only [Bool.and_eq_true] at hboth
    rw [insert_index_records, if_pos he]
    rw [applyBatch_empty st p (List.isEmpty_iff.mp hboth.1) (List.isEmpty_iff.mp hboth.2)]
  · rw [insert_index_records, if_neg he]
    rw [runMessages_ok fail p.messages 0 st.messages (fun j _ => h (0 + j))]
    simp only []
    rw [runMedia_ok fail p.media_items (0 + p.messages.length) st.media (fun j _ => h _)]
    simp only []
    rw [if_neg (by rw [h]; exact Bool.false_ne_true)]
    rfl

/-- When some statement of the transaction (a write or the commit)
fails, the call returns an error. -/
theorem insert_error_of_fail (fail : Nat → Bool) (st : Store) (p : IndexUpsertPayload)
    (hne : ¬(p.messages.isEmpty && p.media_items.isEmpty) = true)
    (hex : ∃ i, i ≤ p.messages.length + p.media_items.length ∧ fail i = true) :
    ∃ e, insert_index_records fail st p = .error e := by
  rw [insert_index_records, if_neg hne]
  by_cases hm : ∃ j, j < p.messages.length ∧ fail (0 + j) = true
  · obtain ⟨e, he⟩ := runMessages_error fail p.messages 0 st.messages hm
    rw [he]
    exact ⟨e, rfl⟩
  · push_neg at hm
    have hm2 : ∀ j, j < p.messages.length → fail (0 + j) = false := by
      intro j hj
      cases hb : fail (0 + j)
      · rfl
      · exact absurd hb (hm j hj)
    rw [runMessages_ok fail p.messages 0 st.messages hm2]
    simp only []
    by_cases hmed : ∃ j, j < p.media_items.length ∧ fail (0 + p.messages.length + j) = true
    · obtain ⟨e, he⟩ := runMedia_error fail p.media_items (0 + p.messages.length) st.media hmed
      rw [he]
      exact ⟨e, rfl⟩
    · push_neg at hmed
      have hmed2 : ∀ j, j < p.media_items.length → fail (0 + p.messages.length + j) = false := by
        intro j hj
        cases hb : fail (0 + p.messages.length + j)
        · rfl
        · exact absurd hb (hmed j hj)
      rw [runMedia_ok fail p.media_items (0 + p.messages.length) st.media hmed2]
      simp only []
      obtain ⟨i, hile, hi⟩ := hex
      have hieq : i = p.messages.length + p.media_items.length := by
        by_contra hne2
        by_cases hsmall : i < p.messages.length
        · have hcon := hm2 i hsmall
          rw [Nat.zero_add] at hcon
          rw [hi] at hcon
          exact Bool.true_eq_false ▸ hcon ▸ rfl
        · have hcon := hmed2 (i - p.messages.length) (by omega)
          rw [show 0 + p.messages.length + (i - p.messages.length) = i by omega] at hcon
          rw [hi] at hcon
          exact Bool.true_eq_false ▸ hcon ▸ rfl
      have hcommit : fail (0 + p.messages.length + p.media_items.length) = true := by
        rw [show 0 + p.messages.length + p.media_items.length = i by omega]
        exact hi
      rw [if_pos hcommit]
      exact ⟨"commit failed", rfl⟩

/-! ## Claim theorems: ingestion -/

theorem applyBatch_idem (st : Store) (p : IndexUpsertPayload) :
    applyBatch (applyBatch st p) p = applyBatch st p := by
  have hm : ∀ (t : List MessageRow), p.messages.foldl upsertMessageRow t
      = (p.messages.map msgRowOf).foldl (upsertBy msgKey) t :=
    fun t => (List.foldl_map msgRowOf (upsertBy msgKey) p.messages t).symm
  have hd : ∀ (t : List MediaRow), p.media_items.foldl upsertMediaRow t
      = (p.media_items.map mediaRowOf).foldl (upsertBy MediaRow.id) t :=
    fun t => (List.foldl_map mediaRowOf (upsertBy MediaRow.id) p.media_items t).symm
  have h1 : p.messages.foldl upsertMessageRow (p.messages.foldl upsertMessageRow st.messages)
      = p.messages.foldl upsertMessageRow st.messages := by
    rw [hm st.messages]
    rw [hm ((p.messages.map msgRowOf).foldl (upsertBy msgKey) st.messages)]
    exact foldl_upsertBy_idem msgKey _ _
  have h2 : p.media_items.foldl upsertMediaRow (p.media_items.foldl upsertMediaRow st.media)
      = p.media_items.foldl upsertMediaRow st.media := by
    rw [hd st.media]
    rw [hd ((p.media_items.map mediaRowOf).foldl (upsertBy MediaRow.id) st.media)]
    exact foldl_upsertBy_idem MediaRow.id _ _
  show Store.mk (p.messages.foldl upsertMessageRow (p.messages.foldl upsertMessageRow st.messages))
      (p.media_items.foldl upsertMediaRow (p.media_items.foldl upsertMediaRow st.media))
    = Store.mk (p.messages.foldl upsertMessageRow st.messages)
      (p.media_items.foldl upsertMediaRow st.media)
  rw [h1, h2]

/-- C7: for every list of strings written as a tokens/tags/reactions/
media_types column by ingestion (`to_json_string`), decoding that stored
column on read (`parse_vec`) yields exactly the same sequence of values
in the same order: encode followed by decode is the identity. -/
theorem stored_list_roundtrip (l : List String) : parse_vec (to_json_string l) = l :=
  parse_vec_roundtrip l

/-- C6: ingesting the identical batch a second time is idempotent: the
second (successfully committed) ingestion leaves exactly the same store
as the first — same rows, hence same row count and same field values —
so every subsequent search returns the same results. -/
theorem reingest_idempotent (st : Store) (p : IndexUpsertPayload) :
    applyBatch (applyBatch st p) p = applyBatch st p
    ∧ insert_index_records (fun _ => false) (applyBatch st p) p = .ok (applyBatch st p)
    ∧ ∀ (q : LocalSearchQueryPayload) (mt : Option String),
        query_index_records (applyBatch (applyBatch st p) p) q mt
          = query_index_records (applyBatch st p) q mt := by
  have hidem := applyBatch_idem st p
  refine ⟨hidem, ?_, fun q mt => by rw [hidem]⟩
  have h := insert_ok_of_no_fail (fun _ => false) (applyBatch st p) p (fun _ => rfl)
  rw [hidem] at h
  exact h

/-- C5: upserting a message record over an existing row with the same
(room_id, event_id) key overwrites every mutable field and leaves
exactly one row for that key; upserting twice with different bodies
leaves exactly one row for the key, equal to the whole row written for
the second record. -/
theorem upsert_last_write_wins (st : Store) (rid1 rid2 : String)
    (hnd : (st.messages.map msgKey).Nodup)
    (m1 m2 : IndexedMessageRecord)
    (hroom : m1.room_id = m2.room_id) (hevent : m1.event_id = m2.event_id)
    (hbody : m1.body ≠ m2.body) :
    (((applyBatch (applyBatch st { room_id := rid1, messages := [m1], media_items := [] })
        { room_id := rid2, messages := [m2], media_items := [] }).messages.filter
          (fun r => decide (msgKey r = (m2.room_id, m2.event_id)))).length = 1)
    ∧ ∀ r ∈ (applyBatch (applyBatch st { room_id := rid1, messages := [m1], media_items := [] })
        { room_id := rid2, messages := [m2], media_items := [] }).messages,
        msgKey r = (m2.room_id, m2.event_id) → r = msgRowOf m2 := by
  have htab : (applyBatch (applyBatch st { room_id := rid1, messages := [m1], media_items := [] })
      { room_id := rid2, messages := [m2], media_items := [] }).messages
      = upsertBy msgKey (upsertBy msgKey st.messages (msgRowOf m1)) (msgRowOf m2) := rfl
  constructor
  · rw [htab]
    have hk : msgKey (msgRowOf m2) = (m2.room_id, m2.event_id) := rfl
    rw [← hk]
    exact countP_key_eq_one msgKey _ _
      (nodup_keys_upsertBy msgKey _ _ (nodup_keys_upsertBy msgKey _ _ hnd))
      ⟨msgRowOf m2, mem_upsertBy_self msgKey _ _, rfl⟩
  · intro r hr hkey
    rw [htab] at hr
    rcases mem_upsertBy_elim msgKey _ _ r hr with heq | hmem
    · exact heq
    · exact absurd hkey hmem.2

theorem upsert_last_write_wins_witness :
    (((applyBatch (applyBatch { messages := [], media := [] }
        { room_id := "!r", messages :=
            [⟨"$e", "!r", "@a", 1, some "first", [], [], [], false, []⟩], media_items := [] })
        { room_id := "!r", messages :=
            [⟨"$e", "!r", "@a", 2, some "second", [], [], [], false, []⟩],
          media_items := [] }).messages.filter
          (fun r => decide (msgKey r = ("!r", "$e")))).length = 1)
    ∧ ∀ r ∈ (applyBatch (applyBatch { messages := [], media := [] }
        { room_id := "!r", messages :=
            [⟨"$e", "!r", "@a", 1, some "first", [], [], [], false, []⟩], media_items := [] })
        { room_id := "!r", messages :=
            [⟨"$e", "!r", "@a", 2, some "second", [], [], [], false, []⟩],
          media_items := [] }).messages,
        msgKey r = ("!r", "$e") →
          r = msgRowOf ⟨"$e", "!r", "@a", 2, some "second", [], [], [], false, []⟩ :=
  upsert_last_write_wins { messages := [], media := [] } "!r" "!r" (by simp)
    ⟨"$e", "!r", "@a", 1, some "first", [], [], [], false, []⟩
    ⟨"$e", "!r", "@a", 2, some "second", [], [], [], false, []⟩ rfl rfl (by simp)

/-- C1: a non-empty batch is applied as one atomic transaction: when all
per-statement writes (and the commit) succeed the call returns the store
with every record of the batch applied — each message key and media id
is present, and with pairwise-distinct keys each record's full row is
present verbatim; when any statement up to and including the commit
fails, the call returns an error and the visible store is exactly the
input store (full rollback). -/
theorem insert_batch_atomic (fail : Nat → Bool) (st : Store) (p : IndexUpsertPayload)
    (hne : p.messages ≠ [] ∨ p.media_items ≠ []) :
    ((∀ i, fail i = false) →
      insert_index_records fail st p = .ok (applyBatch st p)
      ∧ (∀ m ∈ p.messages, HasKey msgKey (applyBatch st p).messages (m.room_id, m.event_id))
      ∧ (∀ i ∈ p.media_items, HasKey MediaRow.id (applyBatch st p).media i.id)
      ∧ ((p.messages.map (fun m => (m.room_id, m.event_id))).Nodup →
          ∀ m ∈ p.messages, msgRowOf m ∈ (applyBatch st p).messages))
    ∧ ((∃ i, i ≤ p.messages.length + p.media_items.length ∧ fail i = true) →
        ∃ e, insert_index_records fail st p = .error e
          ∧ visibleStore (insert_index_records fail st p) st = st) := by
  constructor
  · intro h
    refine ⟨insert_ok_of_no_fail fail st p h, ?_, ?_, ?_⟩
    · intro m hm
      have hfold : (applyBatch st p).messages
          = (p.messages.map msgRowOf).foldl (upsertBy msgKey) st.messages :=
        (List.foldl_map msgRowOf (upsertBy msgKey) p.messages st.messages).symm
      rw [hfold]
      exact hasKey_foldl_of_mem msgKey (p.messages.map msgRowOf) st.messages (msgRowOf m)
        (List.mem_map_of_mem msgRowOf hm)
    · intro i hi
      have hfold : (applyBatch st p).media
          = (p.media_items.map mediaRowOf).foldl (upsertBy MediaRow.id) st.media :=
        (List.foldl_map mediaRowOf (upsertBy MediaRow.id) p.media_items st.media).symm
      rw [hfold]
      exact hasKey_foldl_of_mem MediaRow.id (p.media_items.map mediaRowOf) st.media
        (mediaRowOf i) (List.mem_map_of_mem mediaRowOf hi)
    · intro hnd m hm
      have hfold : (applyBatch st p).messages
          = (p.messages.map msgRowOf).foldl (upsertBy msgKey) st.messages :=
        (List.foldl_map msgRowOf (upsertBy msgKey) p.messages st.messages).symm
      rw [hfold]
      exact row_mem_foldl_of_nodup msgKey _ st.messages
        (by rw [List.map_map]; exact hnd) (msgRowOf m) (List.mem_map_of_mem msgRowOf hm)
  · intro hex
    have hne2 : ¬(p.messages.isEmpty && p.media_items.isEmpty) = true := by
      intro hcon
      rw [Bool.and_eq_true, List.isEmpty_iff, List.isEmpty_iff] at hcon
      rcases hne with h | h
      · exact h hcon.1
      · exact h hcon.2
    obtain ⟨e, he⟩ := insert_error_of_fail fail st p hne2 hex
    exact ⟨e, he, by rw [he]; rfl⟩

theorem insert_batch_atomic_witness :
    insert_index_records (fun _ => false) { messages := [], media := [] }
        { room_id := "!r", messages :=
            [⟨"$e1", "!r", "@a", 5, some "hi", ["hi"], [], [], false, []⟩], media_items := [] }
      = .ok (applyBatch { messages := [], media := [] }
        { room_id := "!r", messages :=
            [⟨"$e1", "!r", "@a", 5, some "hi", ["hi"], [], [], false, []⟩], media_items := [] })
    ∧ ∃ e, insert_index_records (fun _ => true) { messages := [], media := [] }
        { room_id := "!r", messages :=
            [⟨"$e1", "!r", "@a", 5, some "hi", ["hi"], [], [], false, []⟩], media_items := [] }
      = .error e := by
  constructor
  · exact ((insert_batch_atomic (fun _ => false) { messages := [], media := [] }
      { room_id := "!r", messages :=
          [⟨"$e1", "!r", "@a", 5, some "hi", ["hi"], [], [], false, []⟩], media_items := [] }
      (Or.inl (by simp))).1 (fun _ => rfl)).1
  · obtain ⟨e, he, _⟩ := (insert_batch_atomic (fun _ => true) { messages := [], media := [] }
      { room_id := "!r", messages :=
          [⟨"$e1", "!r", "@a", 5, some "hi", ["hi"], [], [], false, []⟩], media_items := [] }
      (Or.inl (by simp))).2 ⟨0, by simp, rfl⟩
    exact ⟨e, he⟩

/-- C10: the payload's top-level room_id has no effect on behaviour:
calls differing only in it are equal, each message row is keyed and
stored under the record's own room_id and event_id (and each media row
under its own id), so one batch carrying differing record-level room_id
values writes rows into several rooms in its one transaction. -/
theorem payload_room_id_unused (fail : Nat → Bool) (st : Store) (p : IndexUpsertPayload)
    (r1 r2 : String) :
    insert_index_records fail st { p with room_id := r1 }
      = insert_index_records fail st { p with room_id := r2 }
    ∧ applyBatch st { p with room_id := r1 } = applyBatch st p
    ∧ ((p.messages.map (fun m => (m.room_id, m.event_id))).Nodup →
        ∀ m ∈ p.messages, msgRowOf m ∈ (applyBatch st p).messages)
    ∧ ((p.media_items.map MediaItemRecord.id).Nodup →
        ∀ i ∈ p.media_items, mediaRowOf i ∈ (applyBatch st p).media) := by
  refine ⟨rfl, rfl, ?_, ?_⟩
  · intro hnd m hm
    have hfold : (applyBatch st p).messages
        = (p.messages.map msgRowOf).foldl (upsertBy msgKey) st.messages :=
      (List.foldl_map msgRowOf (upsertBy msgKey) p.messages st.messages).symm
    rw [hfold]
    exact row_mem_foldl_of_nodup msgKey _ st.messages
      (by rw [List.map_map]; exact hnd) (msgRowOf m) (List.mem_map_of_mem msgRowOf hm)
  · intro hnd i hi
    have hfold : (applyBatch st p).media
        = (p.media_items.map mediaRowOf).foldl (upsertBy MediaRow.id) st.media :=
      (List.foldl_map mediaRowOf (upsertBy MediaRow.id) p.media_items st.media).symm
    rw [hfold]
    exact row_mem_foldl_of_nodup MediaRow.id _ st.media
      (by rw [List.map_map]; exact hnd) (mediaRowOf i) (List.mem_map_of_mem mediaRowOf hi)

theorem payload_room_id_unused_witness :
    insert_index_records (fun _ => false) { messages := [], media := [] }
        { room_id := "!whatever", messages :=
            [⟨"$e1", "!room1", "@a", 1, none, [], [], [], false, []⟩,
             ⟨"$e2", "!room2", "@b", 2, none, [], [], [], false, []⟩], media_items := [] }
      = insert_index_records (fun _ => false) { messages := [], media := [] }
        { room_id := "!other", messages :=
            [⟨"$e1", "!room1", "@a", 1, none, [], [], [], false, []⟩,
             ⟨"$e2", "!room2", "@b", 2, none, [], [], [], false, []⟩], media_items := [] }
    ∧ msgRowOf ⟨"$e1", "!room1", "@a", 1, none, [], [], [], false, []⟩
        ∈ (applyBatch { messages := [], media := [] }
          { room_id := "!whatever", messages :=
              [⟨"$e1", "!room1", "@a", 1, none, [], [], [], false, []⟩,
               ⟨"$e2", "!room2", "@b", 2, none, [], [], [], false, []⟩],
            media_items := [] }).messages
    ∧ msgRowOf ⟨"$e2", "!room2", "@b", 2, none, [], [], [], false, []⟩
        ∈ (applyBatch { messages := [], media := [] }
          { room_id := "!whatever", messages :=
              [⟨"$e1", "!room1", "@a", 1, none, [], [], [], false, []⟩,
               ⟨"$e2", "!room2", "@b", 2, none, [], [], [], false, []⟩],
            media_items := [] }).messages := by
  refine ⟨(payload_room_id_unused (fun _ => false) { messages := [], media := [] }
    { room_id := "x", messages :=
        [⟨"$e1", "!room1", "@a", 1, none, [], [], [], false, []⟩,
         ⟨"$e2", "!room2", "@b", 2, none, [], [], [], false, []⟩], media_items := [] }
    "!whatever" "!other").1, ?_, ?_⟩
  · exact (payload_room_id_unused (fun _ => false) { messages := [], media := [] }
      { room_id := "!whatever", messages :=
          [⟨"$e1", "!room1", "@a", 1, none, [], [], [], false, []⟩,
           ⟨"$e2", "!room2", "@b", 2, none, [], [], [], false, []⟩], media_items := [] }
      "!w" "!w").2.2.1 (by simp) _ (by simp)
  · exact (payload_room_id_unused (fun _ => false) { messages := [], media := [] }
      { room_id := "!whatever", messages :=
          [⟨"$e1", "!room1", "@a", 1, none, [], [], [], false, []⟩,
           ⟨"$e2", "!room2", "@b", 2, none, [], [], [], false, []⟩], media_items := [] }
      "!w" "!w").2.2.1 (by simp) _ (by simp)

/-! ## Claim theorems: mention filter and media-type filter -/

/-- C2 counterexample: for the stored message with tokens ["HI","ALICE"]
and mention target "alice", the search returns the message, yet the
space-padded search surface does not contain the padded lowercased
target as a substring — SQLite LIKE matches ASCII case-insensitively,
plain containment does not. -/
theorem mention_substr_counterexample :
    query_index_records
        (applyBatch { messages := [], media := [] }
          { room_id := "!r", messages :=
              [⟨"$e", "!r", "@a", 7, some "x", ["HI", "ALICE"], [], [], false, []⟩],
            media_items := [] }) emptyQuery (some "alice")
      = [⟨"$e", "!r", "@a", 7, some "x", ["HI", "ALICE"], [], [], false, []⟩]
    ∧ containsSubstr (" " ++ String.intercalate " " ["HI", "ALICE"] ++ " ")
        (" " ++ lowerStr "alice" ++ " ") = false := by
  constructor
  · rw [query_singleton ⟨"$e", "!r", "@a", 7, some "x", ["HI", "ALICE"], [], [], false, []⟩
      "!r" emptyQuery (some "alice") rfl]
    decide
  · decide

/-- C2 (amended): search with a mention target returns only records whose
stored row's search surface LIKE-matches the pattern built from the
space-padded, lowercased target, under SQLite LIKE semantics
(ASCII-case-insensitive, with '%' and '_' in the target acting as
wildcards); and on a store holding exactly one ingested message the
result is that record precisely when the LIKE match against its
space-sentinel search surface succeeds.  For a lowercase surface and a
wildcard-free target this coincides with whole-token containment:
"alice" matches tokens [hi, alice, team] and not [hi, alicia, team]
(see the witness). -/
theorem mention_filter_like (st : Store) (target : String) :
    (∀ (q : LocalSearchQueryPayload) (rec : IndexedMessageRecord),
      rec ∈ query_index_records st q (some target) →
      ∃ row ∈ st.messages, readRecord row = some rec ∧
        likeOpt row.search_tokens ("% " ++ lowerStr target ++ " %") = true)
    ∧ (∀ (m : IndexedMessageRecord) (rid : String),
        query_index_records
            (applyBatch { messages := [], media := [] }
              { room_id := rid, messages := [m], media_items := [] }) emptyQuery (some target)
          = if likeOpt (some (" " ++ String.intercalate " " m.tokens ++ " "))
                ("% " ++ lowerStr target ++ " %") = true then [m] else []) := by
  constructor
  · intro q rec hmem
    obtain ⟨row, hrow, hread, hmatch⟩ := mem_query_elim st q (some target) rec hmem
    refine ⟨row, hrow, hread, ?_⟩
    simp only [rowMatches, Bool.and_eq_true] at hmatch
    exact hmatch.1.2
  · intro m rid
    rw [query_singleton m rid emptyQuery (some target) rfl]
    have hrm : rowMatches emptyQuery (some target) (msgRowOf m)
        = likeOpt (some (" " ++ String.intercalate " " m.tokens ++ " "))
            ("% " ++ lowerStr target ++ " %") := by
      simp [rowMatches, emptyQuery, msgRowOf]
    rw [hrm]

theorem mention_filter_like_witness :
    query_index_records
        (applyBatch { messages := [], media := [] }
          { room_id := "!r", messages :=
              [⟨"$a", "!r", "@u", 1, none, ["hi", "alice", "team"], [], [], false, []⟩],
            media_items := [] }) emptyQuery (some "alice")
      = [⟨"$a", "!r", "@u", 1, none, ["hi", "alice", "team"], [], [], false, []⟩]
    ∧ query_index_records
        (applyBatch { messages := [], media := [] }
          { room_id := "!r", messages :=
              [⟨"$b", "!r", "@u", 1, none, ["hi", "alicia", "team"], [], [], false, []⟩],
            media_items := [] }) emptyQuery (some "alice")
      = [] := by
  constructor
  · rw [(mention_filter_like { messages := [], media := [] } "alice").2
      ⟨"$a", "!r", "@u", 1, none, ["hi", "alice", "team"], [], [], false, []⟩ "!r"]
    decide
  · rw [(mention_filter_like { messages := [], media := [] } "alice").2
      ⟨"$b", "!r", "@u", 1, none, ["hi", "alicia", "team"], [], [], false, []⟩ "!r"]
    decide

/-- C3 counterexample: requesting the media type "%" returns the stored
message whose list is ["video"] — the requested string is interpolated
into a LIKE pattern, so its wildcards match — although the stored
media-types list does not contain "%". -/
theorem media_types_contains_counterexample :
    query_index_records
        (applyBatch { messages := [], media := [] }
          { room_id := "!r", messages :=
              [⟨"$v", "!r", "@u", 1, none, [], [], [], true, ["video"]⟩],
            media_items := [] })
        { emptyQuery with media_types := some ["%"] } none
      = [⟨"$v", "!r", "@u", 1, none, [], [], [], true, ["video"]⟩]
    ∧ (["%"].all (fun t => (["video"] : List String).contains t)) = false := by
  constructor
  · rw [query_singleton ⟨"$v", "!r", "@u", 1, none, [], [], [], true, ["video"]⟩ "!r"
      { emptyQuery with media_types := some ["%"] } none rfl]
    decide
  · decide

/-- C3 (amended): with a present, non-empty media_types list, a stored
message is returned only if for every requested type t the encoded
media-types column LIKE-matches the pattern %"t"% under SQLite
semantics (ASCII-case-insensitive, wildcards in t active) — one AND-ed
clause per requested type, a conjunction, never a disjunction; on a
single-message store the record is returned exactly when every
requested type's pattern matches its encoded media-types list.  For
exact-cased, wildcard-free type names this containment coincides with
list membership (see the witness). -/
theorem media_types_conjunctive (st : Store) (ts : List String) (hts : ts ≠ []) :
    (∀ (q : LocalSearchQueryPayload) (mt : Option String) (rec : IndexedMessageRecord),
      q.media_types = some ts → rec ∈ query_index_records st q mt →
      ∃ row ∈ st.messages, readRecord row = some rec ∧
        ∀ t ∈ ts, likeOpt row.media_types_json ("%\"" ++ t ++ "\"%") = true)
    ∧ (∀ (m : IndexedMessageRecord) (rid : String),
        query_index_records
            (applyBatch { messages := [], media := [] }
              { room_id := rid, messages := [m], media_items := [] })
            { emptyQuery with media_types := some ts } none
          = if ts.all (fun t => likeOpt (some (to_json_string m.media_types))
                ("%\"" ++ t ++ "\"%")) = true then [m] else []) := by
  have hempty : ts.isEmpty = false := by
    cases ts
    · exact absurd rfl hts
    · rfl
  constructor
  · intro q mt rec hq hmem
    obtain ⟨row, hrow, hread, hmatch⟩ := mem_query_elim st q mt rec hmem
    refine ⟨row, hrow, hread, ?_⟩
    simp only [rowMatches, Bool.and_eq_true] at hmatch
    have h6 := hmatch.1.1.2
    rw [hq] at h6
    simp only [hempty, Bool.false_or] at h6
    exact fun t ht => List.all_eq_true.mp h6 t ht
  · intro m rid
    rw [query_singleton m rid { emptyQuery with media_types := some ts } none rfl]
    have hrm : rowMatches { emptyQuery with media_types := some ts } none (msgRowOf m)
        = ts.all (fun t => likeOpt (some (to_json_string m.media_types))
            ("%\"" ++ t ++ "\"%")) := by
      simp [rowMatches, emptyQuery, msgRowOf, hempty]
    rw [hrm]

theorem media_types_conjunctive_witness :
    query_index_records
        (applyBatch { messages := [], media := [] }
          { room_id := "!r", messages :=
              [⟨"$b", "!r", "@u", 3, none, [], [], [], true, ["image", "video"]⟩],
            media_items := [] })
        { emptyQuery with media_types := some ["image", "video"] } none
      = [⟨"$b", "!r", "@u", 3, none, [], [], [], true, ["image", "video"]⟩]
    ∧ query_index_records
        (applyBatch { messages := [], media := [] }
          { room_id := "!r", messages :=
              [⟨"$i", "!r", "@u", 3, none, [], [], [], true, ["image"]⟩],
            media_items := [] })
        { emptyQuery with media_types := some ["image", "video"] } none
      = []
    ∧ query_index_records
        (applyBatch { messages := [], media := [] }
          { room_id := "!r", messages :=
              [⟨"$w", "!r", "@u", 3, none, [], [], [], true, ["video"]⟩],
            media_items := [] })
        { emptyQuery with media_types := some ["image", "video"] } none
      = [] := by
  refine ⟨?_, ?_, ?_⟩
  · rw [(media_types_conjunctive { messages := [], media := [] } ["image", "video"]
      (by simp)).2 ⟨"$b", "!r", "@u", 3, none, [], [], [], true, ["image", "video"]⟩ "!r"]
    decide
  · rw [(media_types_conjunctive { messages := [], media := [] } ["image", "video"]
      (by simp)).2 ⟨"$i", "!r", "@u", 3, none, [], [], [], true, ["image"]⟩ "!r"]
    decide
  · rw [(media_types_conjunctive { messages := [], media := [] } ["image", "video"]
      (by simp)).2 ⟨"$w", "!r", "@u", 3, none, [], [], [], true, ["video"]⟩ "!r"]
    decide

/-! ## Claim theorems: ordering, limit, read completeness -/

theorem readMedia_total (r : MediaRow) (h1 : r.sender.isSome = true)
    (h2 : r.timestamp.isSome = true) : readMedia r = some (readMediaD r) := by
  rcases hs : r.sender with _ | s
  · rw [hs] at h1
    simp at h1
  · rcases ht : r.timestamp with _ | t
    · rw [ht] at h2
      simp at h2
    · simp [readMedia, readMediaD, hs, ht]

theorem filterMap_media_eq_map (l : List MediaRow)
    (h : ∀ r ∈ l, readMedia r = some (readMediaD r)) :
    l.filterMap readMedia = l.map readMediaD := by
  induction l with
  | nil => rfl
  | cons r l ih =>
    rw [List.filterMap_cons, h r (List.mem_cons_self r l)]
    rw [ih (fun x hx => h x (List.mem_cons_of_mem r hx))]
    rfl

/-- C8 counterexample: with a stored row whose tokens_json column is
NULL (dropped by the row mapping) ranked above a decodable row, the
query with limit 1 returns the empty list while the truncated limitless
result holds the decodable record — the SQL LIMIT ran before the
dropping row mapping, so the result is not the ordered limitless result
truncated. -/
theorem limit_truncation_counterexample :
    query_index_records
        { messages :=
            [⟨"!r", "$bad", "@x", 10, none, none, none, some "[]", some "[]", 0, some "[]"⟩,
             ⟨"!r", "$good", "@y", 5, none, some " ", some "[]", some "[]", some "[]", 0,
               some "[]"⟩],
          media := [] } { emptyQuery with limit := some 1 } none
      = []
    ∧ (query_index_records
        { messages :=
            [⟨"!r", "$bad", "@x", 10, none, none, none, some "[]", some "[]", 0, some "[]"⟩,
             ⟨"!r", "$good", "@y", 5, none, some " ", some "[]", some "[]", some "[]", 0,
               some "[]"⟩],
          media := [] } { emptyQuery with limit := none } none).take 1
      = [⟨"$good", "!r", "@y", 5, none, [], [], [], false, []⟩] := by
  constructor
  · decide
  · decide

/-- C8 (amended): every query result is ordered by timestamp
non-increasing (newest first); and provided every stored row's four
list columns are present — so the row mapping drops nothing — a query
with a limit returns exactly the limitless ordered result truncated to
at most that many rows.  In general the SQL LIMIT truncates the
ordered matching rows before the row mapping, which may skip
undecodable rows. -/
theorem query_ordered_limit (st : Store) (q : LocalSearchQueryPayload) (mt : Option String) :
    (query_index_records st q mt).Pairwise
        (fun (a b : IndexedMessageRecord) => b.timestamp ≤ a.timestamp)
    ∧ ((∀ r ∈ st.messages, r.tokens_json.isSome = true ∧ r.tags_json.isSome = true
          ∧ r.reactions_json.isSome = true ∧ r.media_types_json.isSome = true) →
        ∀ n : Nat, query_index_records st { q with limit := some n } mt
          = (query_index_records st { q with limit := none } mt).take n) := by
  constructor
  · rw [query_index_records]
    exact sorted_filterMap_read _ (pairwise_takeLimit _ q.limit _ (sorted_sortDescMsg _))
  · intro h n
    have hr1 : rowMatches { q with limit := some n } mt = rowMatches q mt := rfl
    have hr2 : rowMatches { q with limit := none } mt = rowMatches q mt := rfl
    rw [query_index_records, query_index_records, hr1, hr2]
    rw [show ({ q with limit := some n } : LocalSearchQueryPayload).limit = some n from rfl]
    rw [show ({ q with limit := none } : LocalSearchQueryPayload).limit
      = (none : Option Nat) from rfl]
    have hmem : ∀ r ∈ sortDescMsg (st.messages.filter (rowMatches q mt)),
        readRecord r = some (readRecordD r) := by
      intro r hr
      have hin : r ∈ st.messages := (List.mem_filter.mp ((mem_sortDescMsg _ r).mp hr)).1
      obtain ⟨h1, h2, h3, h4⟩ := h r hin
      exact readRecord_total r h1 h2 h3 h4
    rw [show takeLimit (some n) (sortDescMsg (st.messages.filter (rowMatches q mt)))
      = (sortDescMsg (st.messages.filter (rowMatches q mt))).take n from rfl]
    rw [show takeLimit (none : Option Nat) (sortDescMsg (st.messages.filter (rowMatches q mt)))
      = sortDescMsg (st.messages.filter (rowMatches q mt)) from rfl]
    rw [filterMap_read_eq_map _ (fun r hr => hmem r (List.take_subset n _ hr))]
    rw [filterMap_read_eq_map _ hmem]
    rw [List.map_take]

theorem query_ordered_limit_witness :
    (query_index_records
        { messages :=
            [⟨"!r", "$g1", "@y", 5, none, some " ", some "[]", some "[]", some "[]", 0,
               some "[]"⟩,
             ⟨"!r", "$g2", "@y", 9, none, some " ", some "[]", some "[]", some "[]", 0,
               some "[]"⟩],
          media := [] } emptyQuery none).Pairwise
        (fun (a b : IndexedMessageRecord) => b.timestamp ≤ a.timestamp)
    ∧ query_index_records
        { messages :=
            [⟨"!r", "$g1", "@y", 5, none, some " ", some "[]", some "[]", some "[]", 0,
               some "[]"⟩,
             ⟨"!r", "$g2", "@y", 9, none, some " ", some "[]", some "[]", some "[]", 0,
               some "[]"⟩],
          media := [] } { emptyQuery with limit := some 1 } none
      = (query_index_records
        { messages :=
            [⟨"!r", "$g1", "@y", 5, none, some " ", some "[]", some "[]", some "[]", 0,
               some "[]"⟩,
             ⟨"!r", "$g2", "@y", 9, none, some " ", some "[]", some "[]", some "[]", 0,
               some "[]"⟩],
          media := [] } { emptyQuery with limit := none } none).take 1 := by
  constructor
  · exact (query_ordered_limit
      { messages :=
          [⟨"!r", "$g1", "@y", 5, none, some " ", some "[]", some "[]", some "[]", 0,
             some "[]"⟩,
           ⟨"!r", "$g2", "@y", 9, none, some " ", some "[]", some "[]", some "[]", 0,
             some "[]"⟩],
        media := [] } emptyQuery none).1
  · exact (query_ordered_limit
      { messages :=
          [⟨"!r", "$g1", "@y", 5, none, some " ", some "[]", some "[]", some "[]", 0,
             some "[]"⟩,
           ⟨"!r", "$g2", "@y", 9, none, some " ", some "[]", some "[]", some "[]", 0,
             some "[]"⟩],
        media := [] } emptyQuery none).2 (by decide) 1

/-- C4 counterexample: a stored row with a NULL tokens_json column
matches the unrestricted query, yet the search returns the empty list —
the call succeeds while silently dropping the matching row, instead of
returning it with the field decoded as the empty sequence. -/
theorem read_dropped_row_counterexample :
    rowMatches emptyQuery none
        ⟨"!r", "$bad", "@x", 10, none, none, none, some "[]", some "[]", 0, some "[]"⟩ = true
    ∧ query_index_records
        { messages :=
            [⟨"!r", "$bad", "@x", 10, none, none, none, some "[]", some "[]", 0, some "[]"⟩],
          media := [] } emptyQuery none
      = [] := by
  constructor
  · decide
  · decide

/-- C4 (amended): provided every message row has its four list columns
present and every media row has sender and timestamp present, search
and room-load reads are complete — exactly the ordered (and, for
search, limited) matching rows, each decoded totally, with corrupt
(non-decodable) list text degrading to the empty sequence via
parse_vec rather than failing the read.  A matching row with a NULL
list column (or a media row with NULL sender or timestamp) is instead
silently skipped by the row mapping while the call still succeeds. -/
theorem read_complete_of_decodable (st : Store) (q : LocalSearchQueryPayload)
    (mt : Option String) (rid : String)
    (hmsg : ∀ r ∈ st.messages, r.tokens_json.isSome = true ∧ r.tags_json.isSome = true
      ∧ r.reactions_json.isSome = true ∧ r.media_types_json.isSome = true)
    (hmed : ∀ r ∈ st.media, r.sender.isSome = true ∧ r.timestamp.isSome = true) :
    query_index_records st q mt
      = (takeLimit q.limit (sortDescMsg (st.messages.filter (rowMatches q mt)))).map
          readRecordD
    ∧ (load_room_index_from_conn st rid).messages
      = (sortDescMsg (st.messages.filter (fun r => decide (r.room_id = rid)))).map readRecordD
    ∧ (load_room_index_from_conn st rid).media
      = (sortDescMedia (st.media.filter (fun r => decide (r.room_id = rid)))).map readMediaD
    ∧ (∀ s, parseStringArray s = none → parse_vec s = []) := by
  refine ⟨?_, ?_, ?_, ?_⟩
  · rw [query_index_records]
    apply filterMap_read_eq_map
    intro r hr
    have hin : r ∈ st.messages :=
      (List.mem_filter.mp ((mem_sortDescMsg _ r).mp (mem_takeLimit q.limit _ r hr))).1
    obtain ⟨h1, h2, h3, h4⟩ := hmsg r hin
    exact readRecord_total r h1 h2 h3 h4
  · show (sortDescMsg (st.messages.filter (fun r => decide (r.room_id = rid)))).filterMap
        readRecord = _
    apply filterMap_read_eq_map
    intro r hr
    have hin : r ∈ st.messages := (List.mem_filter.mp ((mem_sortDescMsg _ r).mp hr)).1
    obtain ⟨h1, h2, h3, h4⟩ := hmsg r hin
    exact readRecord_total r h1 h2 h3 h4
  · show (sortDescMedia (st.media.filter (fun r => decide (r.room_id = rid)))).filterMap
        readMedia = _
    apply filterMap_media_eq_map
    intro r hr
    have hin : r ∈ st.media := (List.mem_filter.mp ((mem_sortDescMedia _ r).mp hr)).1
    obtain ⟨h1, h2⟩ := hmed r hin
    exact readMedia_total r h1 h2
  · intro s hs
    rw [parse_vec, hs]
    rfl

theorem read_complete_of_decodable_witness :
    query_index_records
        { messages :=
            [⟨"!r", "$c", "@x", 3, none, some " ", some "not json", some "[]", some "[]", 0,
               some "[]"⟩],
          media := [] } emptyQuery none
      = [⟨"$c", "!r", "@x", 3, none, [], [], [], false, []⟩] := by
  rw [(read_complete_of_decodable
    { messages :=
        [⟨"!r", "$c", "@x", 3, none, some " ", some "not json", some "[]", some "[]", 0,
           some "[]"⟩],
      media := [] } emptyQuery none "!r" (by decide) (by decide)).1]
  decide

/-! ## Claim theorems: smart collections -/

/-- C9: compute_smart_collections never returns a zero-count entry; for
a user with zero important-tagged/reacted rows and zero mention rows it
returns the empty list; the important collection, when included, is in
first position, and the mentions collection — included only when the
derived localpart is non-empty — occupies the following (second)
position: it is last, preceded only by the important entry. -/
theorem smart_collections_shape (st : Store) (uid : String) :
    (∀ e ∈ compute_smart_collections st uid, 0 < e.count)
    ∧ ((st.messages.filter importantRow).length = 0 →
        (st.messages.filter (mentionRow (normalized_localpart uid))).length = 0 →
        compute_smart_collections st uid = [])
    ∧ (∀ e ∈ compute_smart_collections st uid, e.id = "important" →
        (compute_smart_collections st uid).head? = some e)
    ∧ (∀ e ∈ compute_smart_collections st uid, e.id = "mentions" →
        normalized_localpart uid ≠ ""
          ∧ ∃ l, compute_smart_collections st uid = l ++ [e]
              ∧ ∀ e2 ∈ l, e2.id = "important") := by
  by_cases hlp : normalized_localpart uid = ""
  · by_cases hic : 0 < (st.messages.filter importantRow).length
    · have hc : compute_smart_collections st uid
          = [{ id := "important", label := "–í–∞–∂–Ω–æ",
               description := "–°–æ–æ–±—â–µ–Ω–∏—è —Å —Ç–µ–≥–æ–º important –∏–ª–∏ –ø–æ–ø—É–ª—è—Ä–Ω—ã–º–∏ —Ä–µ–∞–∫—Ü–∏—è–º–∏",
               count := (st.messages.filter importantRow).length,
               token := "smart:important" }] := by
        simp [compute_smart_collections, hlp, hic]
      refine ⟨?_, ?_, ?_, ?_⟩
      · intro e he
        rw [hc] at he
        simp only [List.mem_singleton] at he
        subst he
        exact hic
      · intro h0 _
        exact absurd h0 (by omega)
      · intro e he _
        rw [hc] at he ⊢
        simp only [List.mem_singleton] at he
        subst he
        rfl
      · intro e he hid
        rw [hc] at he
        simp only [List.mem_singleton] at he
        subst he
        simp at hid
    · have hc : compute_smart_collections st uid = [] := by
        simp [compute_smart_collections, hlp, hic]
      refine ⟨?_, ?_, ?_, ?_⟩
      · intro e he
        rw [hc] at he
        simp at he
      · intro _ _
        exact hc
      · intro e he _
        rw [hc] at he
        simp at he
      · intro e he _
        rw [hc] at he
        simp at he
  · by_cases hmc : 0 < (st.messages.filter (mentionRow (normalized_localpart uid))).length
    · by_cases hic : 0 < (st.messages.filter importantRow).length
      · have hc : compute_smart_collections st uid
            = [{ id := "important", label := "–í–∞–∂–Ω–æ",
                 description := "–°–æ–æ–±—â–µ–Ω–∏—è —Å —Ç–µ–≥–æ–º important –∏–ª–∏ –ø–æ–ø—É–ª—è—Ä–Ω—ã–º–∏ —Ä–µ–∞–∫—Ü–∏—è–º–∏",
                 count := (st.messages.filter importantRow).length,
                 token := "smart:important" },
               { id := "mentions", label := "–ü—Ä–æ–ø—É—â–µ–Ω–Ω—ã–µ —É–ø–æ–º–∏–Ω–∞–Ω–∏—è",
                 description := "–°–æ–æ–±—â–µ–Ω–∏—è —Å —É–ø–æ–º–∏–Ω–∞–Ω–∏–µ–º –≤–∞—à–µ–≥–æ –∞–∫–∫–∞—É–Ω—Ç–∞",
                 count := (st.messages.filter (mentionRow (normalized_localpart uid))).length,
                 token := "smart:mentions" }] := by
          simp [compute_smart_collections, hlp, hic, hmc]
        refine ⟨?_, ?_, ?_, ?_⟩
        · intro e he
          rw [hc] at he
          simp only [List.mem_cons, List.mem_singleton, List.not_mem_nil, or_false] at he
          rcases he with he | he
          · subst he
            exact hic
          · subst he
            exact hmc
        · intro h0 _
          exact absurd h0 (by omega)
        · intro e he hid
          rw [hc] at he ⊢
          simp only [List.mem_cons, List.mem_singleton, List.not_mem_nil, or_false] at he
          rcases he with he | he
          · subst he
            rfl
          · subst he
            simp at hid
        · intro e he hid
          rw [hc] at he ⊢
          simp only [List.mem_cons, List.mem_singleton, List.not_mem_nil, or_false] at he
          rcases he with he | he
          · subst he
            simp at hid
          · subst he
            refine ⟨hlp, [({ id := "important", label := "–í–∞–∂–Ω–æ",
                             description := "–°–æ–æ–±—â–µ–Ω–∏—è —Å —Ç–µ–≥–æ–º important –∏–ª–∏ –ø–æ–ø—É–ª—è—Ä–Ω—ã–º–∏ —Ä–µ–∞–∫—Ü–∏—è–º–∏",
                             count := (st.messages.filter importantRow).length,
                             token := "smart:important" } :
                SmartCollectionSummaryResponse)], rfl, ?_⟩
            intro e2 he2
            simp only [List.mem_singleton] at he2
            subst he2
            rfl
      · have hc : compute_smart_collections st uid
            = [{ id := "mentions", label := "–ü—Ä–æ–ø—É—â–µ–Ω–Ω—ã–µ —É–ø–æ–º–∏–Ω–∞–Ω–∏—è",
                 description := "–°–æ–æ–±—â–µ–Ω–∏—è —Å —É–ø–æ–º–∏–Ω–∞–Ω–∏–µ–º –≤–∞—à–µ–≥–æ –∞–∫–∫–∞—É–Ω—Ç–∞",
                 count := (st.messages.filter (mentionRow (normalized_localpart uid))).length,
                 token := "smart:mentions" }] := by
          simp [compute_smart_collections, hlp, hic, hmc]
        refine ⟨?_, ?_, ?_, ?_⟩
        · intro e he
          rw [hc] at he
          simp only [List.mem_singleton] at he
          subst he
          exact hmc
        · intro _ hm0
          exact absurd hm0 (by omega)
        · intro e he hid
          rw [hc] at he
          simp only [List.mem_singleton] at he
          subst he
          simp at hid
        · intro e he _
          rw [hc] at he ⊢
          simp only [List.mem_singleton] at he
          subst he
          exact ⟨hlp, [], rfl, fun e2 he2 => by simp at he2⟩
    · by_cases hic : 0 < (st.messages.filter importantRow).length
      · have hc : compute_smart_collections st uid
            = [{ id := "important", label := "–í–∞–∂–Ω–æ",
                 description := "–°–æ–æ–±—â–µ–Ω–∏—è —Å —Ç–µ–≥–æ–º important –∏–ª–∏ –ø–æ–ø—É–ª—è—Ä–Ω—ã–º–∏ —Ä–µ–∞–∫—Ü–∏—è–º–∏",
                 count := (st.messages.filter importantRow).length,
                 token := "smart:important" }] := by
          simp [compute_smart_collections, hlp, hic, hmc]
        refine ⟨?_, ?_, ?_, ?_⟩
        · intro e he
          rw [hc] at he
          simp only [List.mem_singleton] at he
          subst he
          exact hic
        · intro h0 _
          exact absurd h0 (by omega)
        · intro e he _
          rw [hc] at he ⊢
          simp only [List.mem_singleton] at he
          subst he
          rfl
        · intro e he hid
          rw [hc] at he
          simp only [List.mem_singleton] at he
          subst he
          simp at hid
      · have hc : compute_smart_collections st uid = [] := by
          simp [compute_smart_collections, hlp, hic, hmc]
        refine ⟨?_, ?_, ?_, ?_⟩
        · intro e he
          rw [hc] at he
          simp at he
        · intro _ _
          exact hc
        · intro e he _
          rw [hc] at he
          simp at he
        · intro e he _
          rw [hc] at he
          simp at he

theorem smart_collections_shape_witness :
    compute_smart_collections { messages := [], media := [] } "@user:server" = [] :=
  (smart_collections_shape { messages := [], media := [] } "@user:server").2.1 rfl rfl

end MatrixIndex
